import Mathlib

/-!
A shallow embedding of the fuzzing engine in `src/fuzzer/Fuzzer.ts`
(the generation–execution–classification core).  JavaScript runtime
values are modelled by the inductive type `JVal`; machine interaction
(wall-clock time, the PRNG-driven generator stream, and the outcomes of
sandboxed calls to the function under test and to validator functions)
is modelled by an explicit `World` record, and the main test loop of
`fuzz()` is modelled as a fuel-indexed step function over an explicit
`LoopState`.
-/

set_option maxHeartbeats 1000000

namespace Fuzzer

/-- A JavaScript runtime value, as far as the fuzzer inspects one.
Finite numbers are modelled by `Int`; the non-finite numbers `NaN`,
`Infinity` and `-Infinity`, which `implicitOracle` treats specially,
are separate constructors, as are `null` and `undefined`. -/
inductive JVal where
  | vnull : JVal
  | vundef : JVal
  | nan : JVal
  | inf : JVal
  | neginf : JVal
  | num : Int → JVal
  | bool : Bool → JVal
  | str : String → JVal
  | arr : List JVal → JVal
  | obj : List (String × JVal) → JVal
  deriving Repr

mutual

/-- Structural equality of `JVal`s (hand-rolled because the automatic
derivation does not handle the nested lists). -/
def JVal.beq : JVal → JVal → Bool
  | JVal.vnull, JVal.vnull => true
  | JVal.vundef, JVal.vundef => true
  | JVal.nan, JVal.nan => true
  | JVal.inf, JVal.inf => true
  | JVal.neginf, JVal.neginf => true
  | JVal.num a, JVal.num b => a == b
  | JVal.bool a, JVal.bool b => a == b
  | JVal.str a, JVal.str b => a == b
  | JVal.arr a, JVal.arr b => JVal.beqList a b
  | JVal.obj a, JVal.obj b => JVal.beqPairs a b
  | _, _ => false

/-- Structural equality of lists of `JVal`s. -/
def JVal.beqList : List JVal → List JVal → Bool
  | [], [] => true
  | a :: as', b :: bs' => JVal.beq a b && JVal.beqList as' bs'
  | _, _ => false

/-- Structural equality of key/value lists. -/
def JVal.beqPairs : List (String × JVal) → List (String × JVal) → Bool
  | [], [] => true
  | (ka, va) :: as', (kb, vb) :: bs' =>
      ka == kb && JVal.beq va vb && JVal.beqPairs as' bs'
  | _, _ => false

end

mutual

theorem JVal.beq_iff : ∀ a b : JVal, JVal.beq a b = true ↔ a = b
  | JVal.vnull, b => by cases b <;> simp [JVal.beq]
  | JVal.vundef, b => by cases b <;> simp [JVal.beq]
  | JVal.nan, b => by cases b <;> simp [JVal.beq]
  | JVal.inf, b => by cases b <;> simp [JVal.beq]
  | JVal.neginf, b => by cases b <;> simp [JVal.beq]
  | JVal.num a, b => by cases b <;> simp [JVal.beq]
  | JVal.bool a, b => by cases b <;> simp [JVal.beq]
  | JVal.str a, b => by cases b <;> simp [JVal.beq]
  | JVal.arr a, b => by
      cases b <;> simp [JVal.beq, JVal.beqList_iff a]
  | JVal.obj a, b => by
      cases b <;> simp [JVal.beq, JVal.beqPairs_iff a]

theorem JVal.beqList_iff : ∀ a b : List JVal, JVal.beqList a b = true ↔ a = b
  | [], b => by cases b <;> simp [JVal.beqList]
  | a :: as', b => by
      cases b with
      | nil => simp [JVal.beqList]
      | cons x xs =>
          simp [JVal.beqList, JVal.beq_iff a x, JVal.beqList_iff as' xs]

theorem JVal.beqPairs_iff :
    ∀ a b : List (String × JVal), JVal.beqPairs a b = true ↔ a = b
  | [], b => by cases b <;> simp [JVal.beqPairs]
  | (ka, va) :: as', b => by
      cases b with
      | nil => simp [JVal.beqPairs]
      | cons x xs =>
          cases x with
          | mk kb vb =>
              simp [JVal.beqPairs, JVal.beq_iff va vb,
                JVal.beqPairs_iff as' xs, and_assoc]

end

instance : DecidableEq JVal := fun a b =>
  decidable_of_iff (JVal.beq a b = true) (JVal.beq_iff a b)

/-- One level of `Array.prototype.flat()`: elements that are arrays are
spliced in place, all other elements are kept. -/
def jsFlatten1 : List JVal → List JVal
  | [] => []
  | JVal.arr l :: rest => l ++ jsFlatten1 rest
  | v :: rest => v :: jsFlatten1 rest

mutual

/-- `implicitOracle` from Fuzzer.ts: true only if the value contains no
nulls, undefineds, NaNs or Infinity values.  The source dispatches in
this order: `Array.isArray`, `typeof === "number"` (catching `NaN` and
`±Infinity`), `null`/`undefined`, `typeof === "object"`, else true.
The array case is `!x.flat().some((e) => !implicitOracle(e))`: one
level of flattening, then the oracle on each remaining element
(`implicitFlatAll` computes exactly that, see
`implicitFlatAll_eq_flatten`). -/
def implicitOracle : JVal → Bool
  | JVal.arr l => implicitFlatAll l
  | JVal.num _ => true
  | JVal.nan => false
  | JVal.inf => false
  | JVal.neginf => false
  | JVal.vnull => false
  | JVal.vundef => false
  | JVal.obj l => implicitValuesAll l
  | JVal.bool _ => true
  | JVal.str _ => true

/-- `implicitOracle` over every element of one level of `flat()`:
an element that is itself an array is spliced, so the oracle is applied
to each of its own elements instead. -/
def implicitFlatAll : List JVal → Bool
  | [] => true
  | JVal.arr m :: rest => implicitAll m && implicitFlatAll rest
  | v :: rest => implicitOracle v && implicitFlatAll rest

/-- `implicitOracle` over every element of a list. -/
def implicitAll : List JVal → Bool
  | [] => true
  | v :: rest => implicitOracle v && implicitAll rest

/-- `implicitOracle` over every value of an object
(`Object.values(x)`, key order irrelevant to the conjunction). -/
def implicitValuesAll : List (String × JVal) → Bool
  | [] => true
  | (_, v) :: rest => implicitOracle v && implicitValuesAll rest

end

mutual

/-- The predicate the specification describes: the value is, or
recursively contains (recursing into arrays element-wise and objects
value-wise), `null`, `undefined`, `NaN`, `+Infinity` or `-Infinity`. -/
def containsDisallowed : JVal → Bool
  | JVal.vnull => true
  | JVal.vundef => true
  | JVal.nan => true
  | JVal.inf => true
  | JVal.neginf => true
  | JVal.num _ => false
  | JVal.bool _ => false
  | JVal.str _ => false
  | JVal.arr l => containsDisallowedAny l
  | JVal.obj l => containsDisallowedValuesAny l

/-- `containsDisallowed` somewhere in a list. -/
def containsDisallowedAny : List JVal → Bool
  | [] => false
  | v :: rest => containsDisallowed v || containsDisallowedAny rest

/-- `containsDisallowed` somewhere among an object's values. -/
def containsDisallowedValuesAny : List (String × JVal) → Bool
  | [] => false
  | (_, v) :: rest => containsDisallowed v || containsDisallowedValuesAny rest

end

theorem implicitAll_append (l₁ l₂ : List JVal) :
    implicitAll (l₁ ++ l₂) = (implicitAll l₁ && implicitAll l₂) := by
  induction l₁ with
  | nil => simp [implicitAll]
  | cons x xs ih => simp [implicitAll, ih, Bool.and_assoc]

/-- The `implicitFlatAll` helper computes exactly
`!x.flat().some((e) => !implicitOracle(e))` from the source: the oracle
conjoined over one level of flattening. -/
theorem implicitFlatAll_eq_flatten (l : List JVal) :
    implicitFlatAll l = implicitAll (jsFlatten1 l) := by
  induction l with
  | nil => rfl
  | cons v rest ih =>
    cases v <;>
      simp [implicitFlatAll, jsFlatten1, implicitAll, ih, implicitAll_append]

mutual

theorem implicitOracle_eq_not_containsDisallowed :
    ∀ v : JVal, implicitOracle v = !containsDisallowed v
  | JVal.arr l => by
      simp [implicitOracle, containsDisallowed, implicitFlatAll_eq_not_any l]
  | JVal.obj l => by
      simp [implicitOracle, containsDisallowed, implicitValuesAll_eq_not_any l]
  | JVal.vnull => rfl
  | JVal.vundef => rfl
  | JVal.nan => rfl
  | JVal.inf => rfl
  | JVal.neginf => rfl
  | JVal.num _ => rfl
  | JVal.bool _ => rfl
  | JVal.str _ => rfl

theorem implicitAll_eq_not_any :
    ∀ l : List JVal, implicitAll l = !containsDisallowedAny l
  | [] => rfl
  | v :: rest => by
      simp [implicitAll, containsDisallowedAny,
        implicitOracle_eq_not_containsDisallowed v,
        implicitAll_eq_not_any rest]

theorem implicitFlatAll_eq_not_any :
    ∀ l : List JVal, implicitFlatAll l = !containsDisallowedAny l
  | [] => rfl
  | JVal.arr m :: rest => by
      simp [implicitFlatAll, containsDisallowedAny, containsDisallowed,
        implicitAll_eq_not_any m, implicitFlatAll_eq_not_any rest]
  | JVal.vnull :: rest => by
      simp [implicitFlatAll, containsDisallowedAny, containsDisallowed,
        implicitOracle, implicitFlatAll_eq_not_any rest]
  | JVal.vundef :: rest => by
      simp [implicitFlatAll, containsDisallowedAny, containsDisallowed,
        implicitOracle, implicitFlatAll_eq_not_any rest]
  | JVal.nan :: rest => by
      simp [implicitFlatAll, containsDisallowedAny, containsDisallowed,
        implicitOracle, implicitFlatAll_eq_not_any rest]
  | JVal.inf :: rest => by
      simp [implicitFlatAll, containsDisallowedAny, containsDisallowed,
        implicitOracle, implicitFlatAll_eq_not_any rest]
  | JVal.neginf :: rest => by
      simp [implicitFlatAll, containsDisallowedAny, containsDisallowed,
        implicitOracle, implicitFlatAll_eq_not_any rest]
  | JVal.num _ :: rest => by
      simp [implicitFlatAll, containsDisallowedAny, containsDisallowed,
        implicitOracle, implicitFlatAll_eq_not_any rest]
  | JVal.bool _ :: rest => by
      simp [implicitFlatAll, containsDisallowedAny, containsDisallowed,
        implicitOracle, implicitFlatAll_eq_not_any rest]
  | JVal.str _ :: rest => by
      simp [implicitFlatAll, containsDisallowedAny, containsDisallowed,
        implicitOracle, implicitFlatAll_eq_not_any rest]
  | JVal.obj m :: rest => by
      simp [implicitFlatAll, containsDisallowedAny, containsDisallowed,
        implicitOracle, implicitValuesAll_eq_not_any m,
        implicitFlatAll_eq_not_any rest]

theorem implicitValuesAll_eq_not_any :
    ∀ l : List (String × JVal), implicitValuesAll l = !containsDisallowedValuesAny l
  | [] => rfl
  | (_, v) :: rest => by
      simp [implicitValuesAll, containsDisallowedValuesAny,
        implicitOracle_eq_not_containsDisallowed v,
        implicitValuesAll_eq_not_any rest]

end

/-- `FuzzIoElement`: one named input or the single output slot.  The
optional `isTimeout` / `isException` markers appear only on
human-annotated expected outputs.  (`value` of type `JVal` covers
`ArgValueType`.) -/
structure IoElem where
  name : String
  offset : Int
  value : JVal
  isTimeout : Option Bool := none
  isException : Option Bool := none
  deriving DecidableEq, Repr

/-- `FuzzResultCategory`: the closed category enum
`ok | badValue | exception | timeout | disagree | failure`. -/
inductive FuzzResultCategory where
  | ok | badValue | exception | timeout | disagree | failure
  deriving DecidableEq, Repr

/-- `FuzzStopReason` (`CRASH` is the placeholder installed before the
loop and overwritten when a stop condition fires). -/
inductive FuzzStopReason where
  | CRASH | MAXTIME | MAXTESTS | MAXFAILURES | MAXDUPES
  deriving DecidableEq, Repr

/-- `FuzzOptions`.  The numeric limits are JavaScript numbers and may
be handed in negative, which is what `isOptionValid` rejects; they are
modelled as `Int`. -/
structure FuzzOptions where
  maxTests : Int
  maxDupeInputs : Int
  maxFailures : Int
  suiteTimeout : Int
  fnTimeout : Int
  onlyFailures : Bool
  useImplicit : Bool
  useHuman : Bool
  useProperty : Bool
  /-- Modelled from the spec: `ArgDef.isOptionValid(options.argDefaults)`
  (the argument-default constraint check) lives in
  `analysis/typescript/ArgDef.ts`, which is not part of the provided
  sources; the spec only says invalid argument-default constraints make
  the option set invalid, so the outcome of that check is carried as an
  abstract boolean. -/
  argDefaultsValid : Bool
  deriving DecidableEq, Repr

/-- `isOptionValid` from Fuzzer.ts. -/
def isOptionValid (options : FuzzOptions) : Bool :=
  options.maxTests ≥ 0 &&
  options.maxDupeInputs ≥ 0 &&
  options.maxFailures ≥ 0 &&
  options.argDefaultsValid

/-- `FuzzTestResult`, restricted to the fields the engine itself reads
or writes (the stack traces, elapsed per-call time and validator
exception details that are carried along for reporting only are
dropped).  `passedHuman`/`passedValidator` are `Option Bool`: `none`
models the field being absent or `undefined` (which the classifier's
`"passedHuman" in result` / `"passedValidator" in result` tests and
JavaScript truthiness collapse to the same verdict `undefined`). -/
structure FuzzTestResult where
  pinned : Bool
  input : List IoElem
  output : List IoElem
  exception : Bool
  exceptionMessage : Option String
  timeout : Bool
  validatorException : Bool
  passedImplicit : Bool
  passedHuman : Option Bool
  passedValidator : Option Bool
  passedValidators : Option (List (Option Bool))
  expectedOutput : Option (List IoElem)
  category : FuzzResultCategory
  deriving DecidableEq, Repr

/-- `FuzzPinnedTest { input, output, pinned, expectedOutput? }`. -/
structure FuzzPinnedTest where
  input : List IoElem
  output : List IoElem
  pinned : Bool
  expectedOutput : Option (List IoElem) := none
  deriving DecidableEq, Repr

/-- The aggregate `FuzzTestResults` (minus the `env` back-pointer). -/
structure FuzzTestResults where
  stopReason : FuzzStopReason
  elapsedTime : Int
  inputsGenerated : Nat
  dupesGenerated : Nat
  inputsSaved : Nat
  results : List FuzzTestResult
  deriving DecidableEq, Repr

/-- `categorizeResult` from Fuzzer.ts: a recorded validator exception
short-circuits to `failure`; otherwise the three verdicts are merged.
`implicit := result.passedImplicit ? true : false`,
`human := "passedHuman" in result ? (result.passedHuman ? true : false) : undefined`,
`property := "passedValidator" in result ? result.passedValidator : undefined`.
`getBadValueType` maps the outcome kind; `getBadValueTypeProperty` is
`result.passedValidator ? "ok" : "badValue"` (truthy only at
`some true`).  The `env` parameter of the source function is unused by
its body and is omitted. -/
def categorizeResult (result : FuzzTestResult) : FuzzResultCategory :=
  if result.validatorException then
    FuzzResultCategory.failure
  else
    let implicit := result.passedImplicit
    let human := result.passedHuman
    let property := result.passedValidator
    let getBadValueType : FuzzResultCategory :=
      if result.exception then FuzzResultCategory.exception
      else if result.timeout then FuzzResultCategory.timeout
      else FuzzResultCategory.badValue
    let getBadValueTypeProperty : FuzzResultCategory :=
      if result.passedValidator = some true then FuzzResultCategory.ok
      else FuzzResultCategory.badValue
    match human with
    | some true =>
        if property = some false then FuzzResultCategory.disagree
        else FuzzResultCategory.ok
    | some false =>
        if property = some true then FuzzResultCategory.disagree
        else getBadValueType
    | none =>
        match property with
        | some true => FuzzResultCategory.ok
        | some false => getBadValueTypeProperty
        | none =>
            if implicit then FuzzResultCategory.ok else getBadValueType

/-- Outcome of one sandboxed call of the function under test
(`fnWrapper` inside the loop's `try`): a returned value, a thrown
error, or a timeout abort of the vm script. -/
inductive CallOutcome where
  | ret : JVal → CallOutcome
  | exn : String → CallOutcome
  | timeout : CallOutcome
  deriving DecidableEq, Repr

/-- The `Result` record handed to a validator function:
`{ in: inParams, out, exception, timeout }` (field `in` is renamed
`inVals`, `in` being reserved in Lean). -/
structure ValidatorInput where
  inVals : List JVal
  out : JVal
  exception : Bool
  timeout : Bool
  deriving DecidableEq, Repr

/-- Behaviour of one validator call: the boolean it returns, a thrown
error (caught by the wrapper's inner `try`), or a timeout abort of the
vm script (which the source does *not* catch at the call site). -/
inductive ValOutcome where
  | ret : Bool → ValOutcome
  | exn : String → ValOutcome
  | timeout : ValOutcome
  deriving DecidableEq, Repr

/-- An error escaping the main loop: the only such error is the
`ERR_SCRIPT_EXECUTION_TIMEOUT` thrown by `validatorFnWrapper(...)`
(line 308), whose call site has no try/catch. -/
inductive RunAbort where
  | validatorTimeout
  deriving DecidableEq, Repr

/-- An error thrown out of `fuzz()` itself. -/
inductive FuzzError where
  | invalidOptions
  | validatorTimeout
  deriving DecidableEq, Repr

/-- Lines 211–230: calling the function through `fnWrapper` inside
`try`.  On success exactly one output element `{name:"0", offset:0,
value}` is pushed; when the wrapper throws, the push's argument throws
first, so `output` stays empty and either the timeout or the exception
flag is set (`isTimeoutError` distinguishes them by the dedicated error
code). -/
def invokeFn (outcome : CallOutcome) (r : FuzzTestResult) : FuzzTestResult :=
  match outcome with
  | CallOutcome.ret v =>
      { r with output := r.output ++ [{ name := "0", offset := 0, value := v }] }
  | CallOutcome.timeout => { r with timeout := true }
  | CallOutcome.exn m =>
      { r with exception := true, exceptionMessage := some m }

/-- The non-void branch of the implicit oracle passes the whole
`FuzzIoElement` object (not just its `value`) to `implicitOracle`; the
object's own `name` and `offset` fields are a string and a finite
number.  This converts an output element to the `JVal` the oracle
sees.  (Output elements never carry the `isTimeout`/`isException`
markers.) -/
def ioElemToJVal (e : IoElem) : JVal :=
  JVal.obj [("name", JVal.str e.name), ("offset", JVal.num e.offset),
    ("value", e.value)]

/-- Lines 232–247 (IMPLICIT ORACLE): only runs under `useImplicit`;
exceptions and timeouts fail it; a void function must return only
`undefined`; otherwise no output may contain a disallowed value
(`!result.output.some(p)` is written as `List.all` of the negation). -/
def applyImplicit (useImplicit isVoid : Bool) (r : FuzzTestResult) :
    FuzzTestResult :=
  if useImplicit then
    if r.exception || r.timeout then
      { r with passedImplicit := false }
    else if isVoid then
      { r with passedImplicit := r.output.all (fun e => e.value = JVal.vundef) }
    else
      { r with passedImplicit := r.output.all (fun e => implicitOracle (ioElemToJVal e)) }
  else r

/-- `actualEqualsExpectedOutput` from Fuzzer.ts.  The final branch
compares the JSON5 serializations of actual and expected output; here
that canonical serialization is modelled by structural equality of the
element lists. -/
def actualEqualsExpectedOutput (result : FuzzTestResult)
    (expectedOutput : List IoElem) : Bool :=
  if result.timeout then
    match expectedOutput with
    | [] => false
    | e :: _ => e.isTimeout = some true
  else if result.exception then
    match expectedOutput with
    | [] => false
    | e :: _ => e.isException = some true
  else
    result.output = expectedOutput

/-- Lines 249–256 (HUMAN ORACLE): only when `useHuman` is set and an
`expectedOutput` is attached (any attached list is truthy in the
source, including the empty one). -/
def applyHuman (useHuman : Bool) (r : FuzzTestResult) : FuzzTestResult :=
  match useHuman, r.expectedOutput with
  | true, some expected =>
      { r with passedHuman := some (actualEqualsExpectedOutput r expected) }
  | _, _ => r

/-- Lines 274–283: the simplified data structure handed to each
validator: the raw input values, the single output value or the
`"timeout or exception"` sentinel string when there is no output, and
the two outcome flags. -/
def mkValidatorInput (r : FuzzTestResult) : ValidatorInput :=
  { inVals := r.input.map (fun e => e.value)
    out :=
      match r.output with
      | [] => JVal.str "timeout or exception"
      | e :: _ => e.value
    exception := r.exception
    timeout := r.timeout }

/-- Lines 264–321, the `for (const valFn in env.validators)` loop.
Each validator receives `mkValidatorInput` of (a deep copy of) the
result.  A boolean return is appended to `passedValidators`; a thrown
validator error is caught by the wrapper's inner `try` and records
`validatorException := true` while appending `undefined` (the returned
copy's absent `passedValidator`); because the success branch spreads
the copied result, an earlier `true` of `validatorException` survives
later successful validators.  A vm timeout of
`validatorFnWrapper(...)`, however, is thrown at a call site with no
try/catch and aborts the whole run.  (The intermediate
`result.category = categorizeResult(...)` of line 305 only decorates
the copy shown to the validator and is overwritten at line 331, so it
is not modelled.) -/
def runValidatorsLoop (vals : List (ValidatorInput → ValOutcome))
    (r : FuzzTestResult) : Except RunAbort FuzzTestResult :=
  match vals with
  | [] => Except.ok r
  | vfn :: rest =>
      match vfn (mkValidatorInput r) with
      | ValOutcome.timeout => Except.error RunAbort.validatorTimeout
      | ValOutcome.ret b =>
          let pv := some ((r.passedValidators.getD []) ++ [some b])
          runValidatorsLoop rest { r with passedValidators := pv }
      | ValOutcome.exn _ =>
          let pv := some ((r.passedValidators.getD []) ++ [none])
          runValidatorsLoop rest
            { r with passedValidators := pv, validatorException := true }

/-- Lines 323–327: `result.passedValidator = true;` then
`result.passedValidator = result.passedValidator && result.passedValidators[i]`
over the vector, with JavaScript `&&` (a falsy accumulator — `false`
or `undefined` — is returned unchanged, a `true` accumulator yields
the next operand). -/
def jsAndFold (l : List (Option Bool)) : Option Bool :=
  l.foldl
    (fun acc v =>
      match acc with
      | some true => v
      | other => other)
    (some true)

/-- Lines 258–328 (CUSTOM VALIDATOR): only when there is at least one
validator and `useProperty` is set; `passedValidators` is first
initialized to `[]`, the loop runs, then the AND-fold installs
`passedValidator`. -/
def applyValidators (useProperty : Bool)
    (vals : List (ValidatorInput → ValOutcome)) (r : FuzzTestResult) :
    Except RunAbort FuzzTestResult :=
  if vals.length ≠ 0 && useProperty then do
    let r1 ← runValidatorsLoop vals { r with passedValidators := some [] }
    Except.ok
      { r1 with passedValidator := jsAndFold (r1.passedValidators.getD []) }
  else Except.ok r

/-- Lines 160–170: the freshly initialized per-iteration result
(overwritten below as the iteration proceeds). -/
def initResult (input : List IoElem) (pinnedFlag : Bool)
    (expectedOutput : Option (List IoElem)) : FuzzTestResult :=
  { pinned := pinnedFlag
    input := input
    output := []
    exception := false
    exceptionMessage := none
    timeout := false
    validatorException := false
    passedImplicit := true
    passedHuman := none
    passedValidator := none
    passedValidators := none
    expectedOutput := expectedOutput
    category := FuzzResultCategory.ok }

/-- Lines 211–331: one test's processing — invocation, the three
oracles, and the final (re-)categorization of line 331. -/
def processTest (opts : FuzzOptions) (isVoid : Bool)
    (outcome : CallOutcome) (vals : List (ValidatorInput → ValOutcome))
    (input : List IoElem) (pinnedFlag : Bool)
    (expectedOutput : Option (List IoElem)) :
    Except RunAbort FuzzTestResult :=
  match applyValidators opts.useProperty vals
      (applyHuman opts.useHuman
        (applyImplicit opts.useImplicit isVoid
          (invokeFn outcome (initResult input pinnedFlag expectedOutput)))) with
  | Except.error a => Except.error a
  | Except.ok r4 => Except.ok { r4 with category := categorizeResult r4 }

/-- `_checkStopCondition` from Fuzzer.ts; `elapsed` stands for
`new Date().getTime() - startTime`.  The four conditions are tested in
source order. -/
def _checkStopCondition (opts : FuzzOptions) (elapsed : Int)
    (inputsGenerated currentDupeCount totalDupeCount failureCount : Nat) :
    Option FuzzStopReason :=
  if elapsed ≥ opts.suiteTimeout then
    some FuzzStopReason.MAXTIME
  else if (inputsGenerated : Int) - (totalDupeCount : Int) ≥ opts.maxTests then
    some FuzzStopReason.MAXTESTS
  else if opts.maxFailures ≠ 0 && (failureCount : Int) ≥ opts.maxFailures then
    some FuzzStopReason.MAXFAILURES
  else if (currentDupeCount : Int) ≥ opts.maxDupeInputs then
    some FuzzStopReason.MAXDUPES
  else
    none

/-- Everything the loop observes from the outside, indexed by the
iteration counter: the elapsed wall time measured at the iteration's
stop-condition check, the input the per-argument generators produce if
this iteration generates, the behaviour of the function under test if
this iteration invokes it, and the behaviour of each validator
(`val k j` is validator `j` during iteration `k`; it receives the
`ValidatorInput` the loop builds for it). -/
structure World where
  time : Nat → Int
  gen : Nat → List IoElem
  call : Nat → CallOutcome
  val : Nat → Nat → ValidatorInput → ValOutcome

/-- The loop-local mutable state of one `fuzz()` run. -/
structure LoopState where
  iter : Nat
  pinned : List FuzzPinnedTest
  seen : List (List IoElem)
  savedCount : Nat
  inputsGenerated : Nat
  currentDupeCount : Nat
  totalDupeCount : Nat
  failureCount : Nat
  stored : List FuzzTestResult
  deriving Repr

/-- The state at loop entry: the dedup record `allInputs` empty, all
counters zero, the pinned pool as supplied. -/
def initState (pinnedTests : List FuzzPinnedTest) : LoopState :=
  { iter := 0
    pinned := pinnedTests
    seen := []
    savedCount := 0
    inputsGenerated := 0
    currentDupeCount := 0
    totalDupeCount := 0
    failureCount := 0
    stored := [] }

/-- What one pass of the `while (true)` body does: exit with the final
aggregate, or continue with an updated state. -/
inductive StepOut where
  | done : FuzzTestResults → StepOut
  | next : LoopState → StepOut

/-- `pinnedTests.pop()`: removes and returns the *last* element. -/
def popLast (l : List FuzzPinnedTest) :
    Option FuzzPinnedTest × List FuzzPinnedTest :=
  match l.getLast? with
  | none => (none, l)
  | some p => (some p, l.dropLast)

/-- One iteration of the main test loop (lines 140–342).  `argCount` is
`env.function.getArgDefs().length`; `vals` are the enabled validators'
behaviours for this iteration.  In order: the stop-condition check; the
pinned pool is drained via `pop()` (a pinned test increments only
`savedCount` and copies its `pinned` flag and `expectedOutput`),
otherwise the generators build a fresh input and `inputsGenerated` is
incremented; the canonical serialization of the input (modelled by the
input itself) is looked up in `allInputs` — a hit bumps both dupe
counters and skips the rest of the body, a miss resets
`currentDupeCount` and records the input unless the function takes no
arguments; then the test is processed and the result is pushed unless
`onlyFailures` filters it out. -/
def fuzzStep (w : World) (opts : FuzzOptions) (isVoid : Bool)
    (argCount nValidators : Nat) (st : LoopState) :
    Except RunAbort StepOut :=
  match _checkStopCondition opts (w.time st.iter) st.inputsGenerated
      st.currentDupeCount st.totalDupeCount st.failureCount with
  | some reason =>
      Except.ok (StepOut.done
        { stopReason := reason
          elapsedTime := w.time st.iter
          inputsGenerated := st.inputsGenerated
          dupesGenerated := st.totalDupeCount
          inputsSaved := st.savedCount
          results := st.stored })
  | none =>
      let popped := popLast st.pinned
      let pinned' := popped.2
      let data :=
        match popped.1 with
        | some p =>
            (p.input, p.pinned, p.expectedOutput, st.savedCount + 1,
              st.inputsGenerated)
        | none =>
            (w.gen st.iter, false, none, st.savedCount,
              st.inputsGenerated + 1)
      let input := data.1
      let pinnedFlag := data.2.1
      let expectedOutput := data.2.2.1
      let savedCount' := data.2.2.2.1
      let inputsGenerated' := data.2.2.2.2
      if input ∈ st.seen then
        Except.ok (StepOut.next
          { st with
              iter := st.iter + 1
              pinned := pinned'
              savedCount := savedCount'
              inputsGenerated := inputsGenerated'
              currentDupeCount := st.currentDupeCount + 1
              totalDupeCount := st.totalDupeCount + 1 })
      else
        let seen' := if argCount ≠ 0 then input :: st.seen else st.seen
        let vals := (List.range nValidators).map (w.val st.iter)
        match processTest opts isVoid (w.call st.iter) vals input
            pinnedFlag expectedOutput with
        | Except.error a => Except.error a
        | Except.ok r =>
            let failureCount' :=
              if r.category ≠ FuzzResultCategory.ok then st.failureCount + 1
              else st.failureCount
            let stored' :=
              if !opts.onlyFailures || r.category ≠ FuzzResultCategory.ok then
                st.stored ++ [r]
              else st.stored
            Except.ok (StepOut.next
              { iter := st.iter + 1
                pinned := pinned'
                seen := seen'
                savedCount := savedCount'
                inputsGenerated := inputsGenerated'
                currentDupeCount := 0
                totalDupeCount := st.totalDupeCount
                failureCount := failureCount'
                stored := stored' })

/-- The main loop as a fuel-indexed iteration of `fuzzStep`; `none`
means the fuel ran out before a stop condition fired (the real loop
just keeps going). -/
def runFuzz (w : World) (opts : FuzzOptions) (isVoid : Bool)
    (argCount nValidators : Nat) :
    Nat → LoopState → Except RunAbort (Option FuzzTestResults)
  | 0, _ => Except.ok none
  | fuel + 1, st =>
      match fuzzStep w opts isVoid argCount nValidators st with
      | Except.error a => Except.error a
      | Except.ok (StepOut.done final) => Except.ok (some final)
      | Except.ok (StepOut.next st') =>
          runFuzz w opts isVoid argCount nValidators fuel st'

/-- `fuzz()` (lines 65–351): the option validation throws before the
generators are even built; after that the loop runs, and the only
error that can escape it is the uncaught validator vm timeout. -/
def fuzz (w : World) (opts : FuzzOptions) (isVoid : Bool)
    (argCount nValidators : Nat) (pinnedTests : List FuzzPinnedTest)
    (fuel : Nat) : Except FuzzError (Option FuzzTestResults) :=
  if !isOptionValid opts then
    Except.error FuzzError.invalidOptions
  else
    match runFuzz w opts isVoid argCount nValidators fuel
        (initState pinnedTests) with
    | Except.error RunAbort.validatorTimeout =>
        Except.error FuzzError.validatorTimeout
    | Except.ok r => Except.ok r

theorem mkValidatorInput_update_pv (r : FuzzTestResult) (pv : Option (List (Option Bool))) :
    mkValidatorInput { r with passedValidators := pv } = mkValidatorInput r := rfl

theorem mkValidatorInput_update_pv_ve (r : FuzzTestResult)
    (pv : Option (List (Option Bool))) :
    mkValidatorInput { r with passedValidators := pv, validatorException := true } =
      mkValidatorInput r := rfl

/-- Whether a validator behaviour is a thrown (and caught) error. -/
def isExnOutcome (o : ValOutcome) : Bool :=
  match o with
  | ValOutcome.exn _ => true
  | _ => false

theorem runValidatorsLoop_ok_spec (vals : List (ValidatorInput → ValOutcome)) :
    ∀ r r', runValidatorsLoop vals r = Except.ok r' →
      r'.input = r.input ∧ r'.output = r.output ∧ r'.exception = r.exception ∧
      r'.timeout = r.timeout ∧ r'.passedImplicit = r.passedImplicit ∧
      r'.passedHuman = r.passedHuman ∧ r'.passedValidator = r.passedValidator ∧
      r'.expectedOutput = r.expectedOutput ∧ r'.pinned = r.pinned ∧
      r'.validatorException =
        (r.validatorException ||
          vals.any (fun f => isExnOutcome (f (mkValidatorInput r)))) := by
  induction vals with
  | nil =>
      intro r r' h
      simp only [runValidatorsLoop] at h
      cases h
      simp
  | cons vfn rest ih =>
      intro r r' h
      simp only [runValidatorsLoop] at h
      cases hv : vfn (mkValidatorInput r) with
      | timeout => rw [hv] at h; cases h
      | ret b =>
          rw [hv] at h
          have := ih _ _ h
          rw [mkValidatorInput_update_pv] at this
          simpa [List.any_cons, hv, isExnOutcome] using this
      | exn m =>
          rw [hv] at h
          have := ih _ _ h
          rw [mkValidatorInput_update_pv_ve] at this
          simpa [List.any_cons, hv, isExnOutcome] using this

theorem runValidatorsLoop_no_timeout_ok (vals : List (ValidatorInput → ValOutcome)) :
    ∀ r, (∀ f ∈ vals, ∀ vi, f vi ≠ ValOutcome.timeout) →
      ∃ r', runValidatorsLoop vals r = Except.ok r' := by
  induction vals with
  | nil => intro r _; exact ⟨r, rfl⟩
  | cons vfn rest ih =>
      intro r hnt
      simp only [runValidatorsLoop]
      cases hv : vfn (mkValidatorInput r) with
      | timeout =>
          exact absurd hv (hnt vfn (List.mem_cons_self vfn rest) _)
      | ret b => exact ih _ (fun f hf vi => hnt f (List.mem_cons_of_mem _ hf) vi)
      | exn m => exact ih _ (fun f hf vi => hnt f (List.mem_cons_of_mem _ hf) vi)

theorem applyValidators_ok_spec (p : Bool) (vals : List (ValidatorInput → ValOutcome))
    (r r' : FuzzTestResult) (h : applyValidators p vals r = Except.ok r') :
    r'.input = r.input ∧ r'.output = r.output ∧ r'.exception = r.exception ∧
    r'.timeout = r.timeout ∧ r'.passedImplicit = r.passedImplicit ∧
    r'.passedHuman = r.passedHuman ∧ r'.expectedOutput = r.expectedOutput ∧
    r'.pinned = r.pinned ∧
    r'.validatorException =
      (r.validatorException ||
        ((decide (vals.length ≠ 0) && p) &&
          vals.any (fun f => isExnOutcome (f (mkValidatorInput r))))) := by
  simp only [applyValidators] at h
  split at h
  case isTrue hc =>
    cases hloop : runValidatorsLoop vals { r with passedValidators := some [] } with
    | error a =>
        rw [hloop] at h
        simp only [bind, Except.bind] at h
        cases h
    | ok r1 =>
        rw [hloop] at h
        simp only [bind, Except.bind, Except.ok.injEq] at h
        have hs := runValidatorsLoop_ok_spec vals _ _ hloop
        rw [mkValidatorInput_update_pv] at hs
        cases h
        simp only [hc, Bool.true_and]
        simp_all
  case isFalse hc =>
    cases h
    have hfalse : (decide (vals.length ≠ 0) && p) = false := by
      simpa using hc
    refine ⟨rfl, rfl, rfl, rfl, rfl, rfl, rfl, rfl, ?_⟩
    rw [hfalse, Bool.false_and, Bool.or_false]

/-- C1: for every test result in which no validator exception is
recorded, `categorizeResult` merges the oracle verdicts exactly by the
precedence table: human=true with property=false gives `disagree`;
human=true with property true or undefined gives `ok`; human=false with
property=true gives `disagree`; human=false with property false or
undefined gives `exception` if the call threw, else `timeout` if it
timed out, else `badValue`; human undefined with property=true gives
`ok`; human undefined with property=false gives `badValue`; and when
both are undefined the category is `ok` if the implicit verdict is
true, else `exception`/`timeout`/`badValue` by the same outcome-kind
rule. -/
theorem categorizeResult_precedence_table (r : FuzzTestResult)
    (h : r.validatorException = false) :
    (r.passedHuman = some true → r.passedValidator = some false →
      categorizeResult r = FuzzResultCategory.disagree) ∧
    (r.passedHuman = some true → r.passedValidator ≠ some false →
      categorizeResult r = FuzzResultCategory.ok) ∧
    (r.passedHuman = some false → r.passedValidator = some true →
      categorizeResult r = FuzzResultCategory.disagree) ∧
    (r.passedHuman = some false → r.passedValidator ≠ some true →
      categorizeResult r =
        (if r.exception then FuzzResultCategory.exception
         else if r.timeout then FuzzResultCategory.timeout
         else FuzzResultCategory.badValue)) ∧
    (r.passedHuman = none → r.passedValidator = some true →
      categorizeResult r = FuzzResultCategory.ok) ∧
    (r.passedHuman = none → r.passedValidator = some false →
      categorizeResult r = FuzzResultCategory.badValue) ∧
    (r.passedHuman = none → r.passedValidator = none →
      categorizeResult r =
        (if r.passedImplicit then FuzzResultCategory.ok
         else if r.exception then FuzzResultCategory.exception
         else if r.timeout then FuzzResultCategory.timeout
         else FuzzResultCategory.badValue)) := by
  refine ⟨?_, ?_, ?_, ?_, ?_, ?_, ?_⟩ <;> intro h1 h2
  · simp [categorizeResult, h, h1, h2]
  · simp only [categorizeResult, h, Bool.false_eq_true, if_false, h1]
    rw [if_neg h2]
  · simp [categorizeResult, h, h1, h2]
  · simp only [categorizeResult, h, Bool.false_eq_true, if_false, h1]
    rw [if_neg h2]
  · simp [categorizeResult, h, h1, h2]
  · simp [categorizeResult, h, h1, h2]
  · simp [categorizeResult, h, h1, h2]

theorem categorizeResult_precedence_table_witness :
    categorizeResult
      { pinned := false, input := [], output := [], exception := false,
        exceptionMessage := none, timeout := false,
        validatorException := false, passedImplicit := true,
        passedHuman := some true, passedValidator := some false,
        passedValidators := none, expectedOutput := none,
        category := FuzzResultCategory.ok } = FuzzResultCategory.disagree :=
  (categorizeResult_precedence_table _ rfl).1 rfl rfl

theorem checkStopCondition_eq (opts : FuzzOptions) (elapsed : Int)
    (inputsGenerated currentDupeCount totalDupeCount failureCount : Nat) :
    _checkStopCondition opts elapsed inputsGenerated currentDupeCount
        totalDupeCount failureCount =
      (if elapsed ≥ opts.suiteTimeout then some FuzzStopReason.MAXTIME
       else if (inputsGenerated : Int) - (totalDupeCount : Int) ≥ opts.maxTests then
         some FuzzStopReason.MAXTESTS
       else if opts.maxFailures ≠ 0 ∧ (failureCount : Int) ≥ opts.maxFailures then
         some FuzzStopReason.MAXFAILURES
       else if (currentDupeCount : Int) ≥ opts.maxDupeInputs then
         some FuzzStopReason.MAXDUPES
       else none) := by
  simp only [_checkStopCondition, Bool.and_eq_true, decide_eq_true_eq]

/-- C3: `_checkStopCondition` evaluates the four stop conditions in a
fixed priority order with the first match winning: `MAXTIME` when
elapsed time ≥ `suiteTimeout`; otherwise `MAXTESTS` when
`inputsGenerated − totalDupeCount ≥ maxTests`; otherwise `MAXFAILURES`
when `maxFailures ≠ 0` and `failureCount ≥ maxFailures`; otherwise
`MAXDUPES` when `currentDupeCount ≥ maxDupeInputs`; otherwise no stop
condition. -/
theorem checkStopCondition_priority_order (opts : FuzzOptions) (elapsed : Int)
    (inputsGenerated currentDupeCount totalDupeCount failureCount : Nat) :
    (elapsed ≥ opts.suiteTimeout →
      _checkStopCondition opts elapsed inputsGenerated currentDupeCount
        totalDupeCount failureCount = some FuzzStopReason.MAXTIME) ∧
    (elapsed < opts.suiteTimeout →
      (inputsGenerated : Int) - (totalDupeCount : Int) ≥ opts.maxTests →
      _checkStopCondition opts elapsed inputsGenerated currentDupeCount
        totalDupeCount failureCount = some FuzzStopReason.MAXTESTS) ∧
    (elapsed < opts.suiteTimeout →
      (inputsGenerated : Int) - (totalDupeCount : Int) < opts.maxTests →
      opts.maxFailures ≠ 0 → (failureCount : Int) ≥ opts.maxFailures →
      _checkStopCondition opts elapsed inputsGenerated currentDupeCount
        totalDupeCount failureCount = some FuzzStopReason.MAXFAILURES) ∧
    (elapsed < opts.suiteTimeout →
      (inputsGenerated : Int) - (totalDupeCount : Int) < opts.maxTests →
      (opts.maxFailures = 0 ∨ (failureCount : Int) < opts.maxFailures) →
      (currentDupeCount : Int) ≥ opts.maxDupeInputs →
      _checkStopCondition opts elapsed inputsGenerated currentDupeCount
        totalDupeCount failureCount = some FuzzStopReason.MAXDUPES) ∧
    (elapsed < opts.suiteTimeout →
      (inputsGenerated : Int) - (totalDupeCount : Int) < opts.maxTests →
      (opts.maxFailures = 0 ∨ (failureCount : Int) < opts.maxFailures) →
      (currentDupeCount : Int) < opts.maxDupeInputs →
      _checkStopCondition opts elapsed inputsGenerated currentDupeCount
        totalDupeCount failureCount = none) := by
  have heq := checkStopCondition_eq opts elapsed inputsGenerated
    currentDupeCount totalDupeCount failureCount
  refine ⟨?_, ?_, ?_, ?_, ?_⟩
  · intro h1
    rw [heq, if_pos h1]
  · intro h1 h2
    rw [heq, if_neg (not_le.mpr h1), if_pos h2]
  · intro h1 h2 h3 h4
    rw [heq, if_neg (not_le.mpr h1), if_neg (not_le.mpr h2), if_pos ⟨h3, h4⟩]
  · intro h1 h2 h3 h4
    have hmf : ¬ (opts.maxFailures ≠ 0 ∧ (failureCount : Int) ≥ opts.maxFailures) := by
      rcases h3 with h3 | h3
      · simp [h3]
      · exact fun hc => absurd hc.2 (not_le.mpr h3)
    rw [heq, if_neg (not_le.mpr h1), if_neg (not_le.mpr h2), if_neg hmf,
      if_pos h4]
  · intro h1 h2 h3 h4
    have hmf : ¬ (opts.maxFailures ≠ 0 ∧ (failureCount : Int) ≥ opts.maxFailures) := by
      rcases h3 with h3 | h3
      · simp [h3]
      · exact fun hc => absurd hc.2 (not_le.mpr h3)
    rw [heq, if_neg (not_le.mpr h1), if_neg (not_le.mpr h2), if_neg hmf,
      if_neg (not_le.mpr h4)]

theorem checkStopCondition_priority_order_witness :
    _checkStopCondition
      { maxTests := 10, maxDupeInputs := 10, maxFailures := 0,
        suiteTimeout := 50, fnTimeout := 10, onlyFailures := false,
        useImplicit := true, useHuman := true, useProperty := true,
        argDefaultsValid := true } 60 0 0 0 0 = some FuzzStopReason.MAXTIME :=
  (checkStopCondition_priority_order _ 60 0 0 0 0).1 (by decide)

theorem invokeFn_fields (outcome : CallOutcome) (r : FuzzTestResult) :
    (invokeFn outcome r).pinned = r.pinned ∧
    (invokeFn outcome r).input = r.input ∧
    (invokeFn outcome r).validatorException = r.validatorException ∧
    (invokeFn outcome r).passedImplicit = r.passedImplicit ∧
    (invokeFn outcome r).passedHuman = r.passedHuman ∧
    (invokeFn outcome r).passedValidator = r.passedValidator ∧
    (invokeFn outcome r).passedValidators = r.passedValidators ∧
    (invokeFn outcome r).expectedOutput = r.expectedOutput := by
  cases outcome <;> simp [invokeFn]

theorem applyImplicit_fields (u v : Bool) (r : FuzzTestResult) :
    (applyImplicit u v r).input = r.input ∧
    (applyImplicit u v r).output = r.output ∧
    (applyImplicit u v r).exception = r.exception ∧
    (applyImplicit u v r).timeout = r.timeout ∧
    (applyImplicit u v r).passedHuman = r.passedHuman ∧
    (applyImplicit u v r).passedValidator = r.passedValidator ∧
    (applyImplicit u v r).validatorException = r.validatorException ∧
    (applyImplicit u v r).expectedOutput = r.expectedOutput ∧
    (applyImplicit u v r).pinned = r.pinned := by
  unfold applyImplicit
  split_ifs <;> simp

theorem applyHuman_fields (u : Bool) (r : FuzzTestResult) :
    (applyHuman u r).input = r.input ∧
    (applyHuman u r).output = r.output ∧
    (applyHuman u r).exception = r.exception ∧
    (applyHuman u r).timeout = r.timeout ∧
    (applyHuman u r).passedImplicit = r.passedImplicit ∧
    (applyHuman u r).passedValidator = r.passedValidator ∧
    (applyHuman u r).validatorException = r.validatorException ∧
    (applyHuman u r).expectedOutput = r.expectedOutput ∧
    (applyHuman u r).pinned = r.pinned := by
  cases u <;> cases heo : r.expectedOutput <;> simp [applyHuman, heo]

theorem applyHuman_no_expected (u : Bool) (r : FuzzTestResult)
    (h : r.expectedOutput = none) : applyHuman u r = r := by
  cases u <;> simp [applyHuman, h]

theorem applyImplicit_off (v : Bool) (r : FuzzTestResult) :
    applyImplicit false v r = r := by
  simp [applyImplicit]

theorem applyValidators_disabled (p : Bool)
    (vals : List (ValidatorInput → ValOutcome)) (r : FuzzTestResult)
    (h : p = false ∨ vals = []) :
    applyValidators p vals r = Except.ok r := by
  rcases h with h | h <;> simp [applyValidators, h]

theorem mkValidatorInput_update_cat (r : FuzzTestResult)
    (c : FuzzResultCategory) :
    mkValidatorInput { r with category := c } = mkValidatorInput r := rfl

theorem processTest_ok_decomp (opts : FuzzOptions) (isVoid : Bool)
    (outcome : CallOutcome) (vals : List (ValidatorInput → ValOutcome))
    (input : List IoElem) (pf : Bool) (eo : Option (List IoElem))
    (r : FuzzTestResult)
    (h : processTest opts isVoid outcome vals input pf eo = Except.ok r) :
    ∃ r4, applyValidators opts.useProperty vals
        (applyHuman opts.useHuman
          (applyImplicit opts.useImplicit isVoid
            (invokeFn outcome (initResult input pf eo)))) = Except.ok r4 ∧
      r = { r4 with category := categorizeResult r4 } := by
  unfold processTest at h
  cases hav : applyValidators opts.useProperty vals
      (applyHuman opts.useHuman
        (applyImplicit opts.useImplicit isVoid
          (invokeFn outcome (initResult input pf eo)))) with
  | error a =>
      rw [hav] at h
      cases h
  | ok r4 =>
      rw [hav] at h
      simp only [Except.ok.injEq] at h
      exact ⟨r4, rfl, h.symm⟩

/-- C8: when `useImplicit` is false, no expected output is pinned and
no validator verdict is produced (validators disabled or absent), the
test's category is `ok` — even if the call threw or timed out. -/
theorem no_oracle_enabled_category_ok (opts : FuzzOptions) (isVoid : Bool)
    (outcome : CallOutcome) (vals : List (ValidatorInput → ValOutcome))
    (input : List IoElem) (pf : Bool) (r : FuzzTestResult)
    (himp : opts.useImplicit = false)
    (hvc : opts.useProperty = false ∨ vals = [])
    (h : processTest opts isVoid outcome vals input pf none = Except.ok r) :
    r.category = FuzzResultCategory.ok := by
  obtain ⟨r4, hav, hr⟩ := processTest_ok_decomp _ _ _ _ _ _ _ _ h
  rw [himp, applyImplicit_off] at hav
  have h1 := invokeFn_fields outcome (initResult input pf none)
  rw [applyHuman_no_expected _ _ (by rw [h1.2.2.2.2.2.2.2]; rfl)] at hav
  rw [applyValidators_disabled _ _ _ hvc] at hav
  cases hav
  rw [hr]
  simp only [categorizeResult, h1.2.2.1, h1.2.2.2.1, h1.2.2.2.2.1,
    h1.2.2.2.2.2.1]
  rfl

theorem no_oracle_enabled_category_ok_witness :
    (initResult [] false none).category = FuzzResultCategory.ok ∧
    ({ initResult [] false none with
        exception := true,
        exceptionMessage := some "boom",
        category := categorizeResult
          { initResult [] false none with
              exception := true, exceptionMessage := some "boom" } } :
      FuzzTestResult).category = FuzzResultCategory.ok := by
  constructor
  · rfl
  · exact no_oracle_enabled_category_ok
      { maxTests := 10, maxDupeInputs := 10, maxFailures := 0,
        suiteTimeout := 50, fnTimeout := 10, onlyFailures := false,
        useImplicit := false, useHuman := true, useProperty := false,
        argDefaultsValid := true }
      false (CallOutcome.exn "boom") [] [] false _ rfl (Or.inl rfl) rfl

/-- C10 (amended): in every `FuzzTestResult` produced by one loop
iteration, the exception and timeout flags are never both true, and
the output list is empty exactly when the call threw or timed out
(otherwise it contains exactly one element); the validator input's
`out` field is the `"timeout or exception"` sentinel string whenever
the call threw or timed out, and otherwise is the single output value
— which may itself happen to equal the sentinel string (see the
counterexample), so "sentinel exactly in those cases" holds only at
the level of which branch assigned it, not of the value. -/
theorem result_outcome_invariants (opts : FuzzOptions) (isVoid : Bool)
    (outcome : CallOutcome) (vals : List (ValidatorInput → ValOutcome))
    (input : List IoElem) (pf : Bool) (eo : Option (List IoElem))
    (r : FuzzTestResult)
    (h : processTest opts isVoid outcome vals input pf eo = Except.ok r) :
    (¬ (r.exception = true ∧ r.timeout = true)) ∧
    (r.output = [] ↔ (r.exception = true ∨ r.timeout = true)) ∧
    (r.exception = false ∧ r.timeout = false → r.output.length = 1) ∧
    (r.exception = true ∨ r.timeout = true →
      (mkValidatorInput r).out = JVal.str "timeout or exception") ∧
    (∀ e rest, r.output = e :: rest → (mkValidatorInput r).out = e.value) := by
  obtain ⟨r4, hav, hr⟩ := processTest_ok_decomp _ _ _ _ _ _ _ _ h
  have hv := applyValidators_ok_spec _ _ _ _ hav
  have hh := applyHuman_fields opts.useHuman
    (applyImplicit opts.useImplicit isVoid
      (invokeFn outcome (initResult input pf eo)))
  have hi := applyImplicit_fields opts.useImplicit isVoid
    (invokeFn outcome (initResult input pf eo))
  have hout : r.output = (invokeFn outcome (initResult input pf eo)).output := by
    rw [hr]; show r4.output = _
    rw [hv.2.1, hh.2.1, hi.2.1]
  have hexc : r.exception = (invokeFn outcome (initResult input pf eo)).exception := by
    rw [hr]; show r4.exception = _
    rw [hv.2.2.1, hh.2.2.1, hi.2.2.1]
  have hto : r.timeout = (invokeFn outcome (initResult input pf eo)).timeout := by
    rw [hr]; show r4.timeout = _
    rw [hv.2.2.2.1, hh.2.2.2.1, hi.2.2.2.1]
  have hmv : (mkValidatorInput r).out =
      (match r.output with
       | [] => JVal.str "timeout or exception"
       | e :: _ => e.value) := rfl
  cases outcome with
  | ret v =>
      simp only [invokeFn, initResult] at hout hexc hto
      refine ⟨?_, ?_, ?_, ?_, ?_⟩
      · rw [hexc]; simp
      · rw [hout, hexc, hto]; simp
      · intro _; rw [hout]; rfl
      · intro hcase
        rw [hexc] at hcase; rw [hto] at hcase
        simp at hcase
      · intro e rest hcons
        rw [hmv, hcons]
  | exn m =>
      simp only [invokeFn, initResult] at hout hexc hto
      refine ⟨?_, ?_, ?_, ?_, ?_⟩
      · rw [hto]; simp
      · rw [hout, hexc]; simp
      · intro hcase; rw [hexc] at hcase; simp at hcase
      · intro _; rw [hmv, hout]
      · intro e rest hcons
        rw [hout] at hcons; cases hcons
  | timeout =>
      simp only [invokeFn, initResult] at hout hexc hto
      refine ⟨?_, ?_, ?_, ?_, ?_⟩
      · rw [hexc]; simp
      · rw [hout, hto]; simp
      · intro hcase; rw [hto] at hcase; simp at hcase
      · intro _; rw [hmv, hout]
      · intro e rest hcons
        rw [hout] at hcons; cases hcons

theorem result_outcome_invariants_witness :
    ¬ (({ initResult [] false none with
          exception := true, exceptionMessage := some "x",
          passedImplicit := false,
          category := FuzzResultCategory.exception } :
        FuzzTestResult).exception = true ∧
       ({ initResult [] false none with
          exception := true, exceptionMessage := some "x",
          passedImplicit := false,
          category := FuzzResultCategory.exception } :
        FuzzTestResult).timeout = true) :=
  (result_outcome_invariants
    { maxTests := 10, maxDupeInputs := 10, maxFailures := 0,
      suiteTimeout := 50, fnTimeout := 10, onlyFailures := false,
      useImplicit := true, useHuman := false, useProperty := false,
      argDefaultsValid := true }
    false (CallOutcome.exn "x") [] [] false none _ rfl).1

/-- C10 (counterexample to the claim as stated): a function under test
that *returns* the string `"timeout or exception"` produces a
validator input whose `out` field equals the sentinel string although
the call neither threw nor timed out. -/
theorem validator_out_sentinel_collision_cx :
    processTest
        { maxTests := 10, maxDupeInputs := 10, maxFailures := 0,
          suiteTimeout := 50, fnTimeout := 10, onlyFailures := false,
          useImplicit := false, useHuman := false, useProperty := false,
          argDefaultsValid := true }
        false (CallOutcome.ret (JVal.str "timeout or exception")) [] [] false
        none =
      Except.ok
        { initResult [] false none with
            output := [{ name := "0", offset := 0,
                         value := JVal.str "timeout or exception" }] } ∧
    ({ initResult [] false none with
        output := [{ name := "0", offset := 0,
                     value := JVal.str "timeout or exception" }] } :
      FuzzTestResult).exception = false ∧
    ({ initResult [] false none with
        output := [{ name := "0", offset := 0,
                     value := JVal.str "timeout or exception" }] } :
      FuzzTestResult).timeout = false ∧
    (mkValidatorInput
      { initResult [] false none with
          output := [{ name := "0", offset := 0,
                       value := JVal.str "timeout or exception" }] }).out =
      JVal.str "timeout or exception" := by
  refine ⟨?_, rfl, rfl, rfl⟩
  rfl

theorem applyImplicit_failed_call (v : Bool) (r : FuzzTestResult)
    (h : r.exception = true ∨ r.timeout = true) :
    (applyImplicit true v r).passedImplicit = false := by
  have hc : (r.exception || r.timeout) = true := by
    rcases h with h | h <;> simp [h]
  simp [applyImplicit, hc]

theorem processTest_passedImplicit (opts : FuzzOptions) (isVoid : Bool)
    (outcome : CallOutcome) (vals : List (ValidatorInput → ValOutcome))
    (input : List IoElem) (pf : Bool) (eo : Option (List IoElem))
    (r : FuzzTestResult)
    (h : processTest opts isVoid outcome vals input pf eo = Except.ok r) :
    r.passedImplicit =
      (applyImplicit opts.useImplicit isVoid
        (invokeFn outcome (initResult input pf eo))).passedImplicit := by
  obtain ⟨r4, hav, hr⟩ := processTest_ok_decomp _ _ _ _ _ _ _ _ h
  have hv := applyValidators_ok_spec _ _ _ _ hav
  have hh := applyHuman_fields opts.useHuman
    (applyImplicit opts.useImplicit isVoid
      (invokeFn outcome (initResult input pf eo)))
  rw [hr]
  show r4.passedImplicit = _
  rw [hv.2.2.2.2.1, hh.2.2.2.2.1]

/-- C2: `implicitOracle x` is false exactly when `x` is, or recursively
contains (arrays element-wise, objects value-wise), `null`,
`undefined`, `NaN`, `+Infinity` or `-Infinity`; in particular the three
examples from the spec; and in the fuzz loop with `useImplicit`
enabled, `passedImplicit` is false whenever the call threw or timed
out, and for a void-returning function whenever the output value is
anything other than `undefined`. -/
theorem implicitOracle_and_loop_spec :
    (∀ v : JVal, implicitOracle v = !containsDisallowed v) ∧
    implicitOracle (JVal.obj [("a", JVal.num 1),
      ("b", JVal.arr [JVal.num 1, JVal.num 2, JVal.nan])]) = false ∧
    implicitOracle (JVal.obj [("a", JVal.num 1),
      ("b", JVal.arr [JVal.num 1, JVal.num 2])]) = true ∧
    implicitOracle JVal.vundef = false ∧
    (∀ (opts : FuzzOptions) (isVoid : Bool) (outcome : CallOutcome)
      (vals : List (ValidatorInput → ValOutcome)) (input : List IoElem)
      (pf : Bool) (eo : Option (List IoElem)) (r : FuzzTestResult),
      opts.useImplicit = true →
      ((∃ m, outcome = CallOutcome.exn m) ∨ outcome = CallOutcome.timeout) →
      processTest opts isVoid outcome vals input pf eo = Except.ok r →
      r.passedImplicit = false) ∧
    (∀ (opts : FuzzOptions) (v : JVal)
      (vals : List (ValidatorInput → ValOutcome)) (input : List IoElem)
      (pf : Bool) (eo : Option (List IoElem)) (r : FuzzTestResult),
      opts.useImplicit = true → v ≠ JVal.vundef →
      processTest opts true (CallOutcome.ret v) vals input pf eo =
        Except.ok r →
      r.passedImplicit = false) := by
  refine ⟨implicitOracle_eq_not_containsDisallowed, rfl, rfl, rfl, ?_, ?_⟩
  · intro opts isVoid outcome vals input pf eo r himp hbad h
    rw [processTest_passedImplicit _ _ _ _ _ _ _ _ h, himp]
    rcases hbad with ⟨m, rfl⟩ | rfl
    · exact applyImplicit_failed_call _ _ (Or.inl rfl)
    · exact applyImplicit_failed_call _ _ (Or.inr rfl)
  · intro opts v vals input pf eo r himp hv h
    rw [processTest_passedImplicit _ _ _ _ _ _ _ _ h, himp]
    simp [applyImplicit, invokeFn, initResult, hv]

theorem implicitOracle_and_loop_spec_witness :
    ({ pinned := false, input := [], output := [], exception := true,
       exceptionMessage := some "m", timeout := false,
       validatorException := false, passedImplicit := false,
       passedHuman := none, passedValidator := none,
       passedValidators := none, expectedOutput := none,
       category := FuzzResultCategory.exception } :
      FuzzTestResult).passedImplicit = false :=
  implicitOracle_and_loop_spec.2.2.2.2.1
    { maxTests := 10, maxDupeInputs := 10, maxFailures := 0,
      suiteTimeout := 50, fnTimeout := 10, onlyFailures := false,
      useImplicit := true, useHuman := false, useProperty := false,
      argDefaultsValid := true }
    false (CallOutcome.exn "m") [] [] false none _ rfl
    (Or.inl ⟨"m", rfl⟩) rfl

/-- C5: for every test on which some enabled validator function throws
(and that completes, i.e. no validator vm-timeout aborted the run),
the final category is `failure`, regardless of the implicit verdict,
the human verdict and the other validators' verdicts. -/
theorem validator_exception_forces_failure (opts : FuzzOptions)
    (isVoid : Bool) (outcome : CallOutcome)
    (vals : List (ValidatorInput → ValOutcome)) (input : List IoElem)
    (pf : Bool) (eo : Option (List IoElem)) (r : FuzzTestResult)
    (hp : opts.useProperty = true)
    (h : processTest opts isVoid outcome vals input pf eo = Except.ok r)
    (hex : ∃ f ∈ vals, isExnOutcome (f (mkValidatorInput r)) = true) :
    r.category = FuzzResultCategory.failure := by
  obtain ⟨r4, hav, hr⟩ := processTest_ok_decomp _ _ _ _ _ _ _ _ h
  have hv := applyValidators_ok_spec _ _ _ _ hav
  have hmv : mkValidatorInput r =
      mkValidatorInput (applyHuman opts.useHuman
        (applyImplicit opts.useImplicit isVoid
          (invokeFn outcome (initResult input pf eo)))) := by
    rw [hr, mkValidatorInput_update_cat]
    unfold mkValidatorInput
    rw [hv.1, hv.2.1, hv.2.2.1, hv.2.2.2.1]
  obtain ⟨f, hf, hfex⟩ := hex
  have hany : vals.any (fun g => isExnOutcome (g (mkValidatorInput
      (applyHuman opts.useHuman
        (applyImplicit opts.useImplicit isVoid
          (invokeFn outcome (initResult input pf eo))))))) = true := by
    rw [List.any_eq_true]
    exact ⟨f, hf, by rw [← hmv]; exact hfex⟩
  have hlen : vals.length ≠ 0 := by
    intro hc
    rw [List.length_eq_zero] at hc
    subst hc
    exact absurd hf (List.not_mem_nil f)
  have hve : r4.validatorException = true := by
    rw [hv.2.2.2.2.2.2.2.2, hp, hany]
    simp [hlen]
  have hcat : r.category = categorizeResult r4 := by rw [hr]
  rw [hcat]
  simp [categorizeResult, hve]

theorem validator_exception_forces_failure_witness :
    ({ pinned := false, input := [],
       output := [{ name := "0", offset := 0, value := JVal.num 1 }],
       exception := false, exceptionMessage := none, timeout := false,
       validatorException := true, passedImplicit := true,
       passedHuman := none, passedValidator := none,
       passedValidators := some [none], expectedOutput := none,
       category := FuzzResultCategory.failure } :
      FuzzTestResult).category = FuzzResultCategory.failure :=
  validator_exception_forces_failure
    { maxTests := 10, maxDupeInputs := 10, maxFailures := 0,
      suiteTimeout := 50, fnTimeout := 10, onlyFailures := false,
      useImplicit := false, useHuman := false, useProperty := true,
      argDefaultsValid := true }
    false (CallOutcome.ret (JVal.num 1))
    [fun _ => ValOutcome.exn "boom"] [] false none _ rfl rfl
    ⟨fun _ => ValOutcome.exn "boom", List.mem_singleton.mpr rfl, rfl⟩

/-- The input the next iteration will process: the last pinned test's
input while the pool is non-empty, else the freshly generated one. -/
def nextInput (w : World) (st : LoopState) : List IoElem :=
  match st.pinned.getLast? with
  | some p => p.input
  | none => w.gen st.iter

/-- `savedCount` after the next iteration's seeding phase. -/
def nextSaved (st : LoopState) : Nat :=
  match st.pinned.getLast? with
  | some _ => st.savedCount + 1
  | none => st.savedCount

/-- `inputsGenerated` after the next iteration's seeding phase. -/
def nextGenerated (st : LoopState) : Nat :=
  match st.pinned.getLast? with
  | some _ => st.inputsGenerated
  | none => st.inputsGenerated + 1

/-- The `pinned` flag the next iteration's result will carry. -/
def nextPinnedFlag (st : LoopState) : Bool :=
  match st.pinned.getLast? with
  | some p => p.pinned
  | none => false

/-- The expected output attached to the next iteration's test. -/
def nextExpected (st : LoopState) : Option (List IoElem) :=
  match st.pinned.getLast? with
  | some p => p.expectedOutput
  | none => none

theorem fuzzStep_of_stop (w : World) (opts : FuzzOptions) (isVoid : Bool)
    (argCount nValidators : Nat) (st : LoopState) (reason : FuzzStopReason)
    (h : _checkStopCondition opts (w.time st.iter) st.inputsGenerated
      st.currentDupeCount st.totalDupeCount st.failureCount = some reason) :
    fuzzStep w opts isVoid argCount nValidators st =
      Except.ok (StepOut.done
        { stopReason := reason
          elapsedTime := w.time st.iter
          inputsGenerated := st.inputsGenerated
          dupesGenerated := st.totalDupeCount
          inputsSaved := st.savedCount
          results := st.stored }) := by
  unfold fuzzStep
  rw [h]

theorem fuzzStep_next_stop_none (w : World) (opts : FuzzOptions)
    (isVoid : Bool) (argCount nValidators : Nat) (st : LoopState)
    (out : StepOut)
    (h : fuzzStep w opts isVoid argCount nValidators st = Except.ok out)
    (hnd : ∀ final, out ≠ StepOut.done final) :
    _checkStopCondition opts (w.time st.iter) st.inputsGenerated
      st.currentDupeCount st.totalDupeCount st.failureCount = none := by
  cases hstop : _checkStopCondition opts (w.time st.iter) st.inputsGenerated
      st.currentDupeCount st.totalDupeCount st.failureCount with
  | none => rfl
  | some reason =>
      rw [fuzzStep_of_stop w opts isVoid argCount nValidators st reason hstop]
        at h
      cases h
      exact absurd rfl (hnd _)

theorem fuzzStep_dupe (w : World) (opts : FuzzOptions) (isVoid : Bool)
    (argCount nValidators : Nat) (st : LoopState)
    (hstop : _checkStopCondition opts (w.time st.iter) st.inputsGenerated
      st.currentDupeCount st.totalDupeCount st.failureCount = none)
    (hdupe : nextInput w st ∈ st.seen) :
    fuzzStep w opts isVoid argCount nValidators st =
      Except.ok (StepOut.next
        { st with
            iter := st.iter + 1
            pinned := st.pinned.dropLast
            savedCount := nextSaved st
            inputsGenerated := nextGenerated st
            currentDupeCount := st.currentDupeCount + 1
            totalDupeCount := st.totalDupeCount + 1 }) := by
  unfold fuzzStep
  rw [hstop]
  rcases List.eq_nil_or_concat st.pinned with hnil | ⟨ps, p, hcat⟩
  · rw [nextInput, hnil] at hdupe
    simp only [List.getLast?_nil] at hdupe
    simp only [popLast, hnil, List.getLast?_nil, nextSaved, nextGenerated,
      List.getLast?_nil, List.dropLast_nil, if_pos hdupe]
  · have hcat' : st.pinned = ps ++ [p] := by simpa using hcat
    rw [nextInput, hcat'] at hdupe
    rw [List.getLast?_concat] at hdupe
    simp only [popLast, hcat', List.getLast?_concat, List.dropLast_concat,
      nextSaved, nextGenerated, if_pos hdupe]

theorem fuzzStep_fresh (w : World) (opts : FuzzOptions) (isVoid : Bool)
    (argCount nValidators : Nat) (st : LoopState) (r : FuzzTestResult)
    (hstop : _checkStopCondition opts (w.time st.iter) st.inputsGenerated
      st.currentDupeCount st.totalDupeCount st.failureCount = none)
    (hnew : nextInput w st ∉ st.seen)
    (hpt : processTest opts isVoid (w.call st.iter)
        ((List.range nValidators).map (w.val st.iter)) (nextInput w st)
        (nextPinnedFlag st) (nextExpected st) = Except.ok r) :
    fuzzStep w opts isVoid argCount nValidators st =
      Except.ok (StepOut.next
        { iter := st.iter + 1
          pinned := st.pinned.dropLast
          seen := if argCount ≠ 0 then nextInput w st :: st.seen else st.seen
          savedCount := nextSaved st
          inputsGenerated := nextGenerated st
          currentDupeCount := 0
          totalDupeCount := st.totalDupeCount
          failureCount :=
            if r.category ≠ FuzzResultCategory.ok then st.failureCount + 1
            else st.failureCount
          stored :=
            if !opts.onlyFailures || r.category ≠ FuzzResultCategory.ok then
              st.stored ++ [r]
            else st.stored }) := by
  unfold fuzzStep
  rw [hstop]
  rcases List.eq_nil_or_concat st.pinned with hnil | ⟨ps, p, hcat⟩
  · rw [nextInput, hnil] at hnew hpt
    simp only [List.getLast?_nil] at hnew hpt
    rw [nextPinnedFlag, hnil] at hpt
    rw [nextExpected, hnil] at hpt
    simp only [List.getLast?_nil] at hpt
    simp only [popLast, hnil, List.getLast?_nil, List.dropLast_nil,
      if_neg hnew, hpt, nextSaved, nextGenerated, nextInput]
  · have hcat' : st.pinned = ps ++ [p] := by simpa using hcat
    rw [nextInput, hcat'] at hnew hpt
    rw [List.getLast?_concat] at hnew hpt
    rw [nextPinnedFlag, hcat'] at hpt
    rw [nextExpected, hcat'] at hpt
    rw [List.getLast?_concat] at hpt
    simp only [popLast, hcat', List.getLast?_concat, List.dropLast_concat,
      if_neg hnew, hpt, nextSaved, nextGenerated, nextInput]

theorem fuzzStep_abort (w : World) (opts : FuzzOptions) (isVoid : Bool)
    (argCount nValidators : Nat) (st : LoopState) (a : RunAbort)
    (hstop : _checkStopCondition opts (w.time st.iter) st.inputsGenerated
      st.currentDupeCount st.totalDupeCount st.failureCount = none)
    (hnew : nextInput w st ∉ st.seen)
    (hpt : processTest opts isVoid (w.call st.iter)
        ((List.range nValidators).map (w.val st.iter)) (nextInput w st)
        (nextPinnedFlag st) (nextExpected st) = Except.error a) :
    fuzzStep w opts isVoid argCount nValidators st = Except.error a := by
  unfold fuzzStep
  rw [hstop]
  rcases List.eq_nil_or_concat st.pinned with hnil | ⟨ps, p, hcat⟩
  · rw [nextInput, hnil] at hnew hpt
    simp only [List.getLast?_nil] at hnew hpt
    rw [nextPinnedFlag, hnil] at hpt
    rw [nextExpected, hnil] at hpt
    simp only [List.getLast?_nil] at hpt
    simp only [popLast, hnil, List.getLast?_nil, if_neg hnew, hpt]
  · have hcat' : st.pinned = ps ++ [p] := by simpa using hcat
    rw [nextInput, hcat'] at hnew hpt
    rw [List.getLast?_concat] at hnew hpt
    rw [nextPinnedFlag, hcat'] at hpt
    rw [nextExpected, hcat'] at hpt
    rw [List.getLast?_concat] at hpt
    simp only [popLast, hcat', List.getLast?_concat, List.dropLast_concat,
      if_neg hnew, hpt]

theorem nextSaved_of_nil (st : LoopState) (h : st.pinned = []) :
    nextSaved st = st.savedCount := by
  simp [nextSaved, h]

theorem nextSaved_of_ne_nil (st : LoopState) (h : st.pinned ≠ []) :
    nextSaved st = st.savedCount + 1 := by
  rcases List.eq_nil_or_concat st.pinned with hnil | ⟨ps, p, hcat⟩
  · exact absurd hnil h
  · have hcat' : st.pinned = ps ++ [p] := by simpa using hcat
    simp [nextSaved, hcat', List.getLast?_concat]

theorem nextGenerated_of_nil (st : LoopState) (h : st.pinned = []) :
    nextGenerated st = st.inputsGenerated + 1 := by
  simp [nextGenerated, h]

theorem nextGenerated_of_ne_nil (st : LoopState) (h : st.pinned ≠ []) :
    nextGenerated st = st.inputsGenerated := by
  rcases List.eq_nil_or_concat st.pinned with hnil | ⟨ps, p, hcat⟩
  · exact absurd hnil h
  · have hcat' : st.pinned = ps ++ [p] := by simpa using hcat
    simp [nextGenerated, hcat', List.getLast?_concat]

theorem nextInput_of_nil (w : World) (st : LoopState) (h : st.pinned = []) :
    nextInput w st = w.gen st.iter := by
  simp [nextInput, h]

theorem fuzzStep_done_inv (w : World) (opts : FuzzOptions) (isVoid : Bool)
    (argCount nValidators : Nat) (st : LoopState) (final : FuzzTestResults)
    (h : fuzzStep w opts isVoid argCount nValidators st =
      Except.ok (StepOut.done final)) :
    ∃ reason, _checkStopCondition opts (w.time st.iter) st.inputsGenerated
        st.currentDupeCount st.totalDupeCount st.failureCount = some reason ∧
      final =
        { stopReason := reason
          elapsedTime := w.time st.iter
          inputsGenerated := st.inputsGenerated
          dupesGenerated := st.totalDupeCount
          inputsSaved := st.savedCount
          results := st.stored } := by
  cases hstop : _checkStopCondition opts (w.time st.iter) st.inputsGenerated
      st.currentDupeCount st.totalDupeCount st.failureCount with
  | some reason =>
      rw [fuzzStep_of_stop w opts isVoid argCount nValidators st reason hstop]
        at h
      simp only [Except.ok.injEq, StepOut.done.injEq] at h
      exact ⟨reason, rfl, h.symm⟩
  | none =>
      exfalso
      by_cases hdup : nextInput w st ∈ st.seen
      · rw [fuzzStep_dupe w opts isVoid argCount nValidators st hstop hdup]
          at h
        cases h
      · cases hpt : processTest opts isVoid (w.call st.iter)
            ((List.range nValidators).map (w.val st.iter)) (nextInput w st)
            (nextPinnedFlag st) (nextExpected st) with
        | error a =>
            rw [fuzzStep_abort w opts isVoid argCount nValidators st a hstop
              hdup hpt] at h
            cases h
        | ok r =>
            rw [fuzzStep_fresh w opts isVoid argCount nValidators st r hstop
              hdup hpt] at h
            cases h

theorem fuzzStep_next_inv (w : World) (opts : FuzzOptions) (isVoid : Bool)
    (argCount nValidators : Nat) (st st' : LoopState)
    (h : fuzzStep w opts isVoid argCount nValidators st =
      Except.ok (StepOut.next st')) :
    (nextInput w st ∈ st.seen ∧
      st' =
        { st with
            iter := st.iter + 1
            pinned := st.pinned.dropLast
            savedCount := nextSaved st
            inputsGenerated := nextGenerated st
            currentDupeCount := st.currentDupeCount + 1
            totalDupeCount := st.totalDupeCount + 1 }) ∨
    (nextInput w st ∉ st.seen ∧
      ∃ r, processTest opts isVoid (w.call st.iter)
          ((List.range nValidators).map (w.val st.iter)) (nextInput w st)
          (nextPinnedFlag st) (nextExpected st) = Except.ok r ∧
        st' =
          { iter := st.iter + 1
            pinned := st.pinned.dropLast
            seen := if argCount ≠ 0 then nextInput w st :: st.seen else st.seen
            savedCount := nextSaved st
            inputsGenerated := nextGenerated st
            currentDupeCount := 0
            totalDupeCount := st.totalDupeCount
            failureCount :=
              if r.category ≠ FuzzResultCategory.ok then st.failureCount + 1
              else st.failureCount
            stored :=
              if !opts.onlyFailures || r.category ≠ FuzzResultCategory.ok then
                st.stored ++ [r]
              else st.stored }) := by
  have hstop := fuzzStep_next_stop_none w opts isVoid argCount nValidators st
    (StepOut.next st') h (fun final hc => by cases hc)
  by_cases hdup : nextInput w st ∈ st.seen
  · left
    refine ⟨hdup, ?_⟩
    rw [fuzzStep_dupe w opts isVoid argCount nValidators st hstop hdup] at h
    simp only [Except.ok.injEq, StepOut.next.injEq] at h
    exact h.symm
  · right
    refine ⟨hdup, ?_⟩
    cases hpt : processTest opts isVoid (w.call st.iter)
        ((List.range nValidators).map (w.val st.iter)) (nextInput w st)
        (nextPinnedFlag st) (nextExpected st) with
    | error a =>
        rw [fuzzStep_abort w opts isVoid argCount nValidators st a hstop hdup
          hpt] at h
        cases h
    | ok r =>
        rw [fuzzStep_fresh w opts isVoid argCount nValidators st r hstop hdup
          hpt] at h
        simp only [Except.ok.injEq, StepOut.next.injEq] at h
        exact ⟨r, rfl, h.symm⟩

/-- C4 (amended): in every continuing iteration, the pinned pool
shrinks by exactly its *last* element (`Array.prototype.pop`), so the
supplied pinned tests are all consumed before any new input is
generated, but in *reverse* insertion order; processing a pinned test
increments `savedCount` and never `inputsGenerated`, so pinned tests do
not count toward the `maxTests` stop condition; a new input is
generated only once the pool is empty. -/
theorem fuzzStep_pinned_drain_order (w : World) (opts : FuzzOptions)
    (isVoid : Bool) (argCount nValidators : Nat) (st st' : LoopState)
    (h : fuzzStep w opts isVoid argCount nValidators st =
      Except.ok (StepOut.next st')) :
    st'.pinned = st.pinned.dropLast ∧
    (st.pinned ≠ [] → st'.inputsGenerated = st.inputsGenerated ∧
      st'.savedCount = st.savedCount + 1) ∧
    (st.pinned = [] → st'.savedCount = st.savedCount ∧
      st'.inputsGenerated = st.inputsGenerated + 1) := by
  rcases fuzzStep_next_inv w opts isVoid argCount nValidators st st' h with
    ⟨_, rfl⟩ | ⟨_, r, _, rfl⟩ <;>
    exact ⟨rfl,
      fun hne => ⟨nextGenerated_of_ne_nil st hne, nextSaved_of_ne_nil st hne⟩,
      fun hnil => ⟨nextSaved_of_nil st hnil, nextGenerated_of_nil st hnil⟩⟩

/-- The recorded inputs of a finished run, in recording order. -/
def resultInputsOf {E : Type} (x : Except E (Option FuzzTestResults)) :
    Option (List (List IoElem)) :=
  match x with
  | Except.ok (some f) => some (f.results.map (fun r => r.input))
  | _ => none

/-- `(results.length, dupesGenerated, inputsGenerated, inputsSaved)` of
a finished run. -/
def finalStats {E : Type} (x : Except E (Option FuzzTestResults)) :
    Option (Nat × Nat × Nat × Nat) :=
  match x with
  | Except.ok (some f) =>
      some (f.results.length, f.dupesGenerated, f.inputsGenerated,
        f.inputsSaved)
  | _ => none

/-- The stop reason of a finished run. -/
def stopReasonOf {E : Type} (x : Except E (Option FuzzTestResults)) :
    Option FuzzStopReason :=
  match x with
  | Except.ok (some f) => some f.stopReason
  | _ => none

/-- Options with every oracle disabled and generous limits, used by the
concrete scenarios below. -/
def plainOpts : FuzzOptions :=
  { maxTests := 10, maxDupeInputs := 10, maxFailures := 0,
    suiteTimeout := 1000, fnTimeout := 100, onlyFailures := false,
    useImplicit := false, useHuman := false, useProperty := false,
    argDefaultsValid := true }

/-- A pinned test on the single numeric argument `x`. -/
def c4pin (n : Int) : FuzzPinnedTest :=
  { input := [{ name := "x", offset := 0, value := JVal.num n }],
    output := [], pinned := true, expectedOutput := none }

/-- A world whose clock advances one millisecond per iteration, with a
timing-out function under test. -/
def c4w : World :=
  { time := fun k => (k : Int)
    gen := fun _ => [{ name := "x", offset := 0, value := JVal.num 99 }]
    call := fun _ => CallOutcome.timeout
    val := fun _ _ _ => ValOutcome.ret true }

/-- C4 (counterexample to "consumed in their insertion order"): with
the pinned list `[c4pin 10, c4pin 20]`, the *second* list element is
processed first — `pop()` drains the pool from the end. -/
theorem fuzz_pinned_not_insertion_order_cx :
    resultInputsOf
        (fuzz c4w { plainOpts with suiteTimeout := 2 } false 1 0
          [c4pin 10, c4pin 20] 3) =
      some [(c4pin 20).input, (c4pin 10).input] ∧
    (c4pin 10).input ≠ (c4pin 20).input := by
  refine ⟨rfl, by decide⟩

/-- The state right before the step exercised in the drain-order
witness: one pinned test left, its input already seen. -/
def c4st : LoopState :=
  { iter := 0, pinned := [c4pin 7], seen := [(c4pin 7).input],
    savedCount := 0, inputsGenerated := 0, currentDupeCount := 0,
    totalDupeCount := 0, failureCount := 0, stored := [] }

theorem fuzzStep_pinned_drain_order_witness :
    ({ iter := 1, pinned := [], seen := [(c4pin 7).input], savedCount := 1,
       inputsGenerated := 0, currentDupeCount := 1, totalDupeCount := 1,
       failureCount := 0, stored := [] } : LoopState).pinned =
      c4st.pinned.dropLast ∧
    ({ iter := 1, pinned := [], seen := [(c4pin 7).input], savedCount := 1,
       inputsGenerated := 0, currentDupeCount := 1, totalDupeCount := 1,
       failureCount := 0, stored := [] } : LoopState).inputsGenerated =
      c4st.inputsGenerated ∧
    ({ iter := 1, pinned := [], seen := [(c4pin 7).input], savedCount := 1,
       inputsGenerated := 0, currentDupeCount := 1, totalDupeCount := 1,
       failureCount := 0, stored := [] } : LoopState).savedCount =
      c4st.savedCount + 1 := by
  have h := fuzzStep_pinned_drain_order c4w plainOpts false 1 0 c4st
    { iter := 1, pinned := [], seen := [(c4pin 7).input], savedCount := 1,
      inputsGenerated := 0, currentDupeCount := 1, totalDupeCount := 1,
      failureCount := 0, stored := [] } rfl
  exact ⟨h.1, (h.2.1 (by decide)).1, (h.2.1 (by decide)).2⟩

theorem applyValidators_no_timeout_ok (p : Bool)
    (vals : List (ValidatorInput → ValOutcome)) (r : FuzzTestResult)
    (hnt : ∀ f ∈ vals, ∀ vi, f vi ≠ ValOutcome.timeout) :
    ∃ r', applyValidators p vals r = Except.ok r' := by
  unfold applyValidators
  split
  · obtain ⟨r1, hr1⟩ := runValidatorsLoop_no_timeout_ok vals
      { r with passedValidators := some [] } hnt
    rw [hr1]
    exact ⟨_, rfl⟩
  · exact ⟨r, rfl⟩

theorem processTest_total (opts : FuzzOptions) (isVoid : Bool)
    (outcome : CallOutcome) (vals : List (ValidatorInput → ValOutcome))
    (input : List IoElem) (pf : Bool) (eo : Option (List IoElem))
    (hnt : ∀ f ∈ vals, ∀ vi, f vi ≠ ValOutcome.timeout) :
    ∃ r, processTest opts isVoid outcome vals input pf eo = Except.ok r := by
  unfold processTest
  obtain ⟨r4, hr4⟩ := applyValidators_no_timeout_ok opts.useProperty vals
    (applyHuman opts.useHuman
      (applyImplicit opts.useImplicit isVoid
        (invokeFn outcome (initResult input pf eo)))) hnt
  rw [hr4]
  exact ⟨_, rfl⟩

/-- C9 (amended): a `fuzz()` run with invalid options — a negative
limit or invalid argument-default constraints — throws before any
input is generated, whatever the world, fuel or pinned pool; and for
any one test, every exception or timeout of the function under test
and every *exception* of a validator is folded into a per-test result
(the processing never aborts as long as no validator hits the vm
timeout).  A validator vm timeout, by contrast, aborts the run — see
the counterexample. -/
theorem fuzz_failfast_and_recovery :
    (∀ (w : World) (opts : FuzzOptions) (isVoid : Bool)
      (argCount nValidators : Nat) (pinnedTests : List FuzzPinnedTest)
      (fuel : Nat), isOptionValid opts = false →
      fuzz w opts isVoid argCount nValidators pinnedTests fuel =
        Except.error FuzzError.invalidOptions) ∧
    (∀ (opts : FuzzOptions) (isVoid : Bool) (outcome : CallOutcome)
      (vals : List (ValidatorInput → ValOutcome)) (input : List IoElem)
      (pf : Bool) (eo : Option (List IoElem)),
      (∀ f ∈ vals, ∀ vi, f vi ≠ ValOutcome.timeout) →
      ∃ r, processTest opts isVoid outcome vals input pf eo = Except.ok r) := by
  constructor
  · intro w opts isVoid argCount nValidators pinnedTests fuel hbad
    simp [fuzz, hbad]
  · intro opts isVoid outcome vals input pf eo hnt
    exact processTest_total opts isVoid outcome vals input pf eo hnt

theorem fuzz_failfast_and_recovery_witness :
    fuzz c4w { plainOpts with maxTests := -1 } false 1 0 [] 5 =
      Except.error FuzzError.invalidOptions :=
  fuzz_failfast_and_recovery.1 c4w { plainOpts with maxTests := -1 } false
    1 0 [] 5 rfl

/-- A world whose single validator always hits the vm timeout. -/
def c9w : World :=
  { time := fun _ => 0
    gen := fun _ => [{ name := "x", offset := 0, value := JVal.num 0 }]
    call := fun _ => CallOutcome.ret (JVal.num 1)
    val := fun _ _ _ => ValOutcome.timeout }

/-- C9 (counterexample to "invalid options are the only case where the
engine raises"): with perfectly valid options, a validator that hits
the vm timeout makes the run abort with an error — the
`validatorFnWrapper(...)` call site has no try/catch. -/
theorem fuzz_raises_beyond_invalid_options_cx :
    isOptionValid { plainOpts with useProperty := true } = true ∧
    fuzz c9w { plainOpts with useProperty := true } false 1 1 [] 3 =
      Except.error FuzzError.validatorTimeout := by
  exact ⟨rfl, rfl⟩

theorem runFuzz_zero_arg_aux (w : World) (opts : FuzzOptions) (isVoid : Bool)
    (nValidators : Nat) :
    ∀ (fuel : Nat) (st : LoopState) (final : FuzzTestResults),
      st.seen = [] →
      runFuzz w opts isVoid 0 nValidators fuel st = Except.ok (some final) →
      final.dupesGenerated = st.totalDupeCount := by
  intro fuel
  induction fuel with
  | zero =>
      intro st final hseen h
      simp [runFuzz] at h
  | succ n ih =>
      intro st final hseen h
      rw [runFuzz] at h
      cases hstep : fuzzStep w opts isVoid 0 nValidators st with
      | error a => rw [hstep] at h; cases h
      | ok out =>
          rw [hstep] at h
          cases out with
          | done f =>
              simp only [Except.ok.injEq, Option.some.injEq] at h
              subst h
              obtain ⟨reason, _, hf⟩ :=
                fuzzStep_done_inv w opts isVoid 0 nValidators st f hstep
              rw [hf]
          | next st' =>
              rcases fuzzStep_next_inv w opts isVoid 0 nValidators st st'
                  hstep with ⟨hdup, rfl⟩ | ⟨hnew, r, hpt, rfl⟩
              · rw [hseen] at hdup
                exact absurd hdup (List.not_mem_nil _)
              · have hseen' : (if (0 : Nat) ≠ 0 then nextInput w st :: st.seen
                    else st.seen) = [] := by
                  simpa using hseen
                have := ih _ final (by simpa using hseen') h
                simpa using this

/-- The options for the identical-pinned-tests scenario: stop as soon
as one duplicate is seen. -/
def c6opts : FuzzOptions := { plainOpts with maxDupeInputs := 1 }

/-- C6: duplicate detection happens before invocation: a duplicate
iteration increments both dupe counters and changes nothing else —
nothing is invoked, recorded or added to the seen set; any non-dupe
input resets `currentDupeCount` to 0; for a zero-argument function no
input is ever treated as a duplicate (`dupesGenerated` is always 0);
and when two identical pinned tests are supplied, only the first is
executed and recorded — the run stores exactly one result, counts the
second as one duplicate, and generates no inputs (both pop off the
saved-input counter, `inputsSaved = 2`). -/
theorem dedup_before_invocation_spec :
    (∀ (w : World) (opts : FuzzOptions) (isVoid : Bool)
      (argCount nValidators : Nat) (st st' : LoopState),
      fuzzStep w opts isVoid argCount nValidators st =
        Except.ok (StepOut.next st') →
      nextInput w st ∈ st.seen →
      st'.currentDupeCount = st.currentDupeCount + 1 ∧
      st'.totalDupeCount = st.totalDupeCount + 1 ∧
      st'.stored = st.stored ∧ st'.seen = st.seen ∧
      st'.failureCount = st.failureCount) ∧
    (∀ (w : World) (opts : FuzzOptions) (isVoid : Bool)
      (argCount nValidators : Nat) (st st' : LoopState),
      fuzzStep w opts isVoid argCount nValidators st =
        Except.ok (StepOut.next st') →
      nextInput w st ∉ st.seen →
      st'.currentDupeCount = 0) ∧
    (∀ (w : World) (opts : FuzzOptions) (isVoid : Bool)
      (nValidators fuel : Nat) (pinnedTests : List FuzzPinnedTest)
      (final : FuzzTestResults),
      runFuzz w opts isVoid 0 nValidators fuel (initState pinnedTests) =
        Except.ok (some final) →
      final.dupesGenerated = 0) ∧
    finalStats (fuzz c4w c6opts false 1 0 [c4pin 7, c4pin 7] 3) =
      some (1, 1, 0, 2) := by
  refine ⟨?_, ?_, ?_, rfl⟩
  · intro w opts isVoid argCount nValidators st st' h hdup
    rcases fuzzStep_next_inv w opts isVoid argCount nValidators st st' h with
      ⟨_, rfl⟩ | ⟨hnew, _, _, _⟩
    · exact ⟨rfl, rfl, rfl, rfl, rfl⟩
    · exact absurd hdup hnew
  · intro w opts isVoid argCount nValidators st st' h hnew
    rcases fuzzStep_next_inv w opts isVoid argCount nValidators st st' h with
      ⟨hdup, _⟩ | ⟨_, _, _, rfl⟩
    · exact absurd hdup hnew
    · rfl
  · intro w opts isVoid nValidators fuel pinnedTests final h
    exact runFuzz_zero_arg_aux w opts isVoid nValidators fuel _ final rfl h

theorem dedup_before_invocation_spec_witness :
    ({ iter := 1, pinned := [], seen := [(c4pin 7).input], savedCount := 1,
       inputsGenerated := 0, currentDupeCount := 1, totalDupeCount := 1,
       failureCount := 0, stored := [] } : LoopState).currentDupeCount =
      c4st.currentDupeCount + 1 :=
  (dedup_before_invocation_spec.1 c4w plainOpts false 1 0 c4st
    { iter := 1, pinned := [], seen := [(c4pin 7).input], savedCount := 1,
      inputsGenerated := 0, currentDupeCount := 1, totalDupeCount := 1,
      failureCount := 0, stored := [] } rfl (by decide)).1

theorem seen_length_le_two (a b : List IoElem) (seen : List (List IoElem))
    (hnd : seen.Nodup) (hsub : ∀ y ∈ seen, y = a ∨ y = b) :
    seen.length ≤ 2 := by
  match seen, hnd, hsub with
  | [], _, _ => simp
  | [x], _, _ => simp
  | [x, y], _, _ => simp
  | x :: y :: z :: t, hnd, hsub =>
      exfalso
      obtain ⟨hx, hnd1⟩ := List.nodup_cons.mp hnd
      obtain ⟨hy, _⟩ := List.nodup_cons.mp hnd1
      have hxy : x ≠ y := by
        rintro rfl
        exact hx (List.mem_cons_self _ _)
      have hxz : x ≠ z := by
        rintro rfl
        exact hx (List.mem_cons_of_mem _ (List.mem_cons_self _ _))
      have hyz : y ≠ z := by
        rintro rfl
        exact hy (List.mem_cons_self _ _)
      rcases hsub x (by simp) with rfl | rfl <;>
        rcases hsub y (by simp) with h2 | h2 <;>
          rcases hsub z (by simp) with h3 | h3 <;>
            simp_all

theorem seen_length_le_one_of_fresh (a b x : List IoElem)
    (seen : List (List IoElem)) (hnd : seen.Nodup)
    (hsub : ∀ y ∈ seen, y = a ∨ y = b) (hx : x = a ∨ x = b)
    (hnotin : x ∉ seen) : seen.length ≤ 1 := by
  match seen, hnd, hsub with
  | [], _, _ => simp
  | [y], _, _ => simp
  | y :: z :: t, hnd, hsub =>
      exfalso
      obtain ⟨hy, _⟩ := List.nodup_cons.mp hnd
      have hyz : y ≠ z := by
        rintro rfl
        exact hy (List.mem_cons_self _ _)
      have hxy : x ≠ y := by
        rintro rfl
        exact hnotin (List.mem_cons_self _ _)
      have hxz : x ≠ z := by
        rintro rfl
        exact hnotin (List.mem_cons_of_mem _ (List.mem_cons_self _ _))
      rcases hsub y (by simp) with rfl | rfl <;>
        rcases hsub z (by simp) with h2 | h2 <;>
          rcases hx with h3 | h3 <;>
            simp_all

theorem runFuzz_small_space_aux (w : World) (opts : FuzzOptions)
    (isVoid : Bool) (a b : List IoElem)
    (htime : ∀ k, w.time k < opts.suiteTimeout)
    (hgen : ∀ k, w.gen k = a ∨ w.gen k = b)
    (hmt : opts.maxTests = 5) (hmd : opts.maxDupeInputs = 100)
    (hmf : opts.maxFailures = 0) :
    ∀ (fuel : Nat) (st : LoopState),
      st.pinned = [] → st.seen.Nodup → (∀ y ∈ st.seen, y = a ∨ y = b) →
      st.inputsGenerated = st.totalDupeCount + st.seen.length →
      (2 - st.seen.length) * 101 + 100 - st.currentDupeCount < fuel →
      ∃ final, runFuzz w opts isVoid 1 0 fuel st = Except.ok (some final) ∧
        final.stopReason = FuzzStopReason.MAXDUPES := by
  intro fuel
  induction fuel with
  | zero => intro st _ _ _ _ hm; omega
  | succ n ih =>
      intro st hpin hnd hsub hcount hm
      have hlen2 : st.seen.length ≤ 2 := seen_length_le_two a b st.seen hnd hsub
      have hnotime : ¬ (w.time st.iter ≥ opts.suiteTimeout) :=
        not_le.mpr (htime st.iter)
      have hnotests : ¬ ((st.inputsGenerated : Int) -
          (st.totalDupeCount : Int) ≥ opts.maxTests) := by
        rw [hmt, hcount]
        push_cast
        omega
      have hnofail : ¬ (opts.maxFailures ≠ 0 ∧
          (st.failureCount : Int) ≥ opts.maxFailures) := by
        rw [hmf]
        simp
      by_cases hcdc : (st.currentDupeCount : Int) ≥ opts.maxDupeInputs
      · have hstop : _checkStopCondition opts (w.time st.iter)
            st.inputsGenerated st.currentDupeCount st.totalDupeCount
            st.failureCount = some FuzzStopReason.MAXDUPES := by
          rw [checkStopCondition_eq, if_neg hnotime, if_neg hnotests,
            if_neg hnofail, if_pos hcdc]
        refine ⟨{ stopReason := FuzzStopReason.MAXDUPES
                  elapsedTime := w.time st.iter
                  inputsGenerated := st.inputsGenerated
                  dupesGenerated := st.totalDupeCount
                  inputsSaved := st.savedCount
                  results := st.stored }, ?_, rfl⟩
        rw [runFuzz, fuzzStep_of_stop w opts isVoid 1 0 st _ hstop]
      · have hstop : _checkStopCondition opts (w.time st.iter)
            st.inputsGenerated st.currentDupeCount st.totalDupeCount
            st.failureCount = none := by
          rw [checkStopCondition_eq, if_neg hnotime, if_neg hnotests,
            if_neg hnofail, if_neg hcdc]
        have hcdcn : st.currentDupeCount < 100 := by
          rw [hmd] at hcdc
          exact_mod_cast not_le.mp hcdc
        by_cases hdup : nextInput w st ∈ st.seen
        · have hstep := fuzzStep_dupe w opts isVoid 1 0 st hstop hdup
          obtain ⟨final, hrun, hreason⟩ := ih
            { st with
                iter := st.iter + 1
                pinned := st.pinned.dropLast
                savedCount := nextSaved st
                inputsGenerated := nextGenerated st
                currentDupeCount := st.currentDupeCount + 1
                totalDupeCount := st.totalDupeCount + 1 }
            (by show st.pinned.dropLast = []; rw [hpin]; rfl)
            hnd hsub
            (by show nextGenerated st = st.totalDupeCount + 1 + st.seen.length
                rw [nextGenerated_of_nil st hpin]
                omega)
            (by show (2 - st.seen.length) * 101 + 100 -
                  (st.currentDupeCount + 1) < n
                omega)
          exact ⟨final, by rw [runFuzz, hstep]; exact hrun, hreason⟩
        · obtain ⟨r, hpt⟩ := processTest_total opts isVoid (w.call st.iter)
            ((List.range 0).map (w.val st.iter)) (nextInput w st)
            (nextPinnedFlag st) (nextExpected st) (by simp)
          have hstep := fuzzStep_fresh w opts isVoid 1 0 st r hstop hdup hpt
          have hxab : nextInput w st = a ∨ nextInput w st = b := by
            rw [nextInput_of_nil w st hpin]
            exact hgen st.iter
          have hlen1 : st.seen.length ≤ 1 :=
            seen_length_le_one_of_fresh a b (nextInput w st) st.seen hnd hsub
              hxab hdup
          obtain ⟨final, hrun, hreason⟩ := ih
            { iter := st.iter + 1
              pinned := st.pinned.dropLast
              seen := if (1 : Nat) ≠ 0 then nextInput w st :: st.seen
                else st.seen
              savedCount := nextSaved st
              inputsGenerated := nextGenerated st
              currentDupeCount := 0
              totalDupeCount := st.totalDupeCount
              failureCount :=
                if r.category ≠ FuzzResultCategory.ok then st.failureCount + 1
                else st.failureCount
              stored :=
                if !opts.onlyFailures ||
                    r.category ≠ FuzzResultCategory.ok then
                  st.stored ++ [r]
                else st.stored }
            (by show st.pinned.dropLast = []; rw [hpin]; rfl)
            (by show (if (1 : Nat) ≠ 0 then nextInput w st :: st.seen
                  else st.seen).Nodup
                rw [if_pos (by decide)]
                exact List.nodup_cons.mpr ⟨hdup, hnd⟩)
            (by intro y hy
                rw [if_pos (by decide)] at hy
                rcases List.mem_cons.mp hy with rfl | hy'
                · exact hxab
                · exact hsub y hy')
            (by show nextGenerated st = st.totalDupeCount +
                  (if (1 : Nat) ≠ 0 then nextInput w st :: st.seen
                   else st.seen).length
                rw [nextGenerated_of_nil st hpin, if_pos (by decide)]
                simp only [List.length_cons]
                omega)
            (by show (2 - (if (1 : Nat) ≠ 0 then nextInput w st :: st.seen
                  else st.seen).length) * 101 + 100 - 0 < n
                rw [if_pos (by decide)]
                simp only [List.length_cons]
                omega)
          exact ⟨final, by rw [runFuzz, hstep]; exact hrun, hreason⟩

/-- C7: for every run on a function with a single argument whose
generated inputs can only take two distinct values (for example one
boolean argument with both values possible), with `maxTests = 5`,
`maxDupeInputs = 100`, `maxFailures = 0` (failure limit off) and the
suite timeout never firing, the loop terminates and stops with reason
`MAXDUPES` rather than `MAXTESTS`: once all distinct inputs are
exhausted every generated input is a duplicate, so `currentDupeCount`
reaches `maxDupeInputs` while `inputsGenerated − totalDupeCount` never
exceeds the 2 distinct inputs and stays below `maxTests`. -/
theorem small_input_space_stops_maxdupes (w : World) (opts : FuzzOptions)
    (isVoid : Bool) (a b : List IoElem)
    (htime : ∀ k, w.time k < opts.suiteTimeout)
    (hgen : ∀ k, w.gen k = a ∨ w.gen k = b)
    (hmt : opts.maxTests = 5) (hmd : opts.maxDupeInputs = 100)
    (hmf : opts.maxFailures = 0) :
    ∀ fuel, 400 ≤ fuel →
      ∃ final, runFuzz w opts isVoid 1 0 fuel (initState []) =
          Except.ok (some final) ∧
        final.stopReason = FuzzStopReason.MAXDUPES := by
  intro fuel hfuel
  exact runFuzz_small_space_aux w opts isVoid a b htime hgen hmt hmd hmf fuel
    (initState []) rfl List.nodup_nil (by intro y hy; cases hy) rfl
    (by show (2 - (0 : Nat)) * 101 + 100 - 0 < fuel; omega)

/-- The two possible generated inputs of the boolean-argument
scenario. -/
def c7a : List IoElem := [{ name := "b", offset := 0, value := JVal.bool true }]

/-- See `c7a`. -/
def c7b : List IoElem := [{ name := "b", offset := 0, value := JVal.bool false }]

/-- A world generating only the two boolean inputs, alternating. -/
def c7w : World :=
  { time := fun _ => 0
    gen := fun k => if k % 2 = 0 then c7a else c7b
    call := fun _ => CallOutcome.ret (JVal.num 1)
    val := fun _ _ _ => ValOutcome.ret true }

theorem small_input_space_stops_maxdupes_witness :
    stopReasonOf
        (runFuzz c7w { plainOpts with maxTests := 5, maxDupeInputs := 100 }
          false 1 0 400 (initState [])) = some FuzzStopReason.MAXDUPES := by
  obtain ⟨final, hrun, hreason⟩ :=
    small_input_space_stops_maxdupes c7w
      { plainOpts with maxTests := 5, maxDupeInputs := 100 } false c7a c7b
      (fun k => by norm_num [c7w, plainOpts])
      (fun k => by
        by_cases h : k % 2 = 0
        · left; simp [c7w, h]
        · right; simp [c7w, h])
      rfl rfl rfl 400 le_rfl
  simp [stopReasonOf, hrun, hreason]

end Fuzzer
